import Mathlib

/-!
The record scanning and repair engine of `filefix.c`.

A shallow embedding of `process_file` (src/filefix.c, lines 399-582) and of the
globals it reads.

Modelling conventions

* A byte is a `Nat` (an `unsigned char` value, so below 256 in every real file);
  the data file is the `List Nat` of its bytes.  `get_char = buffer[i]` converts
  the `char` to `unsigned char`, so every comparison of the source is a comparison
  of values in `0..255`.
* The stream is ideal: `fseek` to a non-negative `long` succeeds, `fread` delivers
  the bytes that exist, `fwrite` inside the file succeeds.  `fopen` is assumed to
  have succeeded for the data file.
* `invalid_count` (`size_t`) and `null_count` (`int`) are unbounded naturals: they
  are bounded by the number of bytes inspected.
* The offset list is the sequence of buffers `input_pos` that `fgets` and `strtok`
  deliver, one per line, each a list of bytes.
* `is_number` comes from `filelib.h`, which is not part of the sources; it is a
  parameter of the model.
-/

namespace Filefix

/-! ## Globals (lines 57-82) -/

def VALID_START : Nat := 32
def VALID_END : Nat := 126
def END_OF_RECORD : Nat := 250
def END_OF_RECORD_CR : Nat := 10
def NULL_VALUE : Nat := 0
def NULL_FILL_VALUE : Nat := 255
def DELETE_NULL_THRESHOLD : Nat := 10

/-- The globals that the command line sets and `process_file` reads. -/
structure Config where
  RECORD_SIZE : Nat
  FILL_VALUE : Nat
  RECORD_POSITION : Nat
  POSITION_SET : Bool
  UPDATE_FLAG : Bool
  FULL_DETECTION_FLAG : Bool
  ZERO_DETECTION_FLAG : Bool
deriving DecidableEq, Repr

/-! ## The two invalidity tests -/

/-- The condition of line 452 (whole-file scan). -/
def invalid_scan (RECORD_SIZE i get_char : Nat) : Bool :=
  (decide (get_char < VALID_START) || decide (get_char > VALID_END)) &&
  ((get_char != END_OF_RECORD && get_char != END_OF_RECORD_CR) ||
   ((get_char == END_OF_RECORD || get_char == END_OF_RECORD_CR) && i != RECORD_SIZE - 1))

/-- The condition of line 555 (positional scan); `END_OF_RECORD_CR` is tested twice there. -/
def invalid_pos (RECORD_SIZE i get_char : Nat) : Bool :=
  (decide (get_char < VALID_START) || decide (get_char > VALID_END)) &&
  ((get_char != END_OF_RECORD && get_char != END_OF_RECORD_CR && get_char != END_OF_RECORD_CR) ||
   ((get_char == END_OF_RECORD || get_char == END_OF_RECORD_CR) && i != RECORD_SIZE - 1))

/-! ## Stream primitives -/

/-- Bytes delivered by `fread(&buffer, 1, n, f)` with the stream at `pos`: the bytes that exist,
at most `n`. -/
def fread (file : List Nat) (pos n : Nat) : List Nat :=
  (file.drop pos).take n

/-- The file after `fwrite(&writebuf, 1, n, f)` with the stream at `pos`. -/
def fwrite (file : List Nat) (pos : Nat) (writebuf : List Nat) : List Nat :=
  file.take pos ++ writebuf ++ file.drop (pos + writebuf.length)

/-- Result of `fseek(f, pos, SEEK_SET)`: the offset parameter is a `long`, so a `size_t` from
`2^63` on is negative there and the call fails. -/
def fseek_ok (pos : Nat) : Bool :=
  decide (pos < 2 ^ 63)

/-- The call `memset(writebuf, NULL_FILL_VALUE, RECORD_SIZE)`. -/
def memset (value n : Nat) : List Nat :=
  List.replicate n value

/-! ## One record of the whole-file scan (lines 431-489) -/

/-- Locals of one iteration of the whole-file loop. -/
structure RecState where
  writebuf : List Nat
  null_count : Nat
  invalid_count : Nat
deriving DecidableEq, Repr

/-- Body of the `for` loop of lines 447-481 at index `i`. -/
def scan_byte (cfg : Config) (buffer : List Nat) (st : RecState) (i : Nat) : RecState :=
  let get_char := buffer.getD i 0
  if invalid_scan cfg.RECORD_SIZE i get_char then
    let st1 : RecState :=
      if get_char == NULL_VALUE && cfg.ZERO_DETECTION_FLAG then
        { writebuf := st.writebuf.set i NULL_FILL_VALUE
          null_count := st.null_count + 1
          invalid_count := st.invalid_count + 1 }
      else st
    if get_char != NULL_VALUE && cfg.FULL_DETECTION_FLAG then
      { st1 with writebuf := st1.writebuf.set i cfg.FILL_VALUE
                 invalid_count := st1.invalid_count + 1 }
    else st1
  else st

/-- The `for` loop of lines 447-481: `memcpy`, then every index from 0 to `RECORD_SIZE - 1`. -/
def scan_bytes (cfg : Config) (buffer : List Nat) (invalid_count : Nat) : RecState :=
  (List.range cfg.RECORD_SIZE).foldl (scan_byte cfg buffer)
    { writebuf := buffer, null_count := 0, invalid_count := invalid_count }

/-- The test of lines 483 and 487 that guards the `memset` of line 488. -/
def delete_record (cfg : Config) (null_count : Nat) : Bool :=
  cfg.ZERO_DETECTION_FLAG && decide (null_count > DELETE_NULL_THRESHOLD)

/-- Lines 431-489: the repaired record and the counters after one record. -/
def scan_record (cfg : Config) (buffer : List Nat) (invalid_count : Nat) : RecState :=
  let st := scan_bytes cfg buffer invalid_count
  if delete_record cfg st.null_count then
    { st with writebuf := memset NULL_FILL_VALUE cfg.RECORD_SIZE }
  else st

/-- State of the whole-file loop between two iterations. -/
structure ScanState where
  file : List Nat
  file_pos : Nat
  invalid_count : Nat
deriving DecidableEq, Repr

/-- The `while` loop of lines 430-509.  `fuel` bounds the number of evaluations of the loop
condition; `none` means the bound was reached with the loop still running. -/
def scan_loop (cfg : Config) : Nat → ScanState → Option ScanState
  | 0, _ => none
  | fuel + 1, st =>
    let buffer := fread st.file st.file_pos cfg.RECORD_SIZE
    if buffer.length == cfg.RECORD_SIZE then
      let r := scan_record cfg buffer st.invalid_count
      let file1 :=
        if cfg.UPDATE_FLAG && r.writebuf != buffer then fwrite st.file st.file_pos r.writebuf
        else st.file
      scan_loop cfg fuel
        { file := file1, file_pos := st.file_pos + cfg.RECORD_SIZE,
          invalid_count := r.invalid_count }
    else some st

/-! ## One record of the positional scan (lines 534-573) -/

/-- Locals of the positional inner loop. -/
structure PosRec where
  writebuf : List Nat
  invalid_count : Nat
deriving DecidableEq, Repr

/-- Body of the `for` loop of lines 552-560 at index `i`. -/
def pos_byte (cfg : Config) (buffer : List Nat) (st : PosRec) (i : Nat) : PosRec :=
  let get_char := buffer.getD i 0
  if invalid_pos cfg.RECORD_SIZE i get_char then
    { writebuf := st.writebuf.set i cfg.FILL_VALUE, invalid_count := st.invalid_count + 1 }
  else st

/-- Lines 550-560: `memcpy`, then every index from 0 to `RECORD_SIZE - 1`. -/
def pos_record (cfg : Config) (buffer : List Nat) (invalid_count : Nat) : PosRec :=
  (List.range cfg.RECORD_SIZE).foldl (pos_byte cfg buffer)
    { writebuf := buffer, invalid_count := invalid_count }

/-- State of the positional loop between two iterations. -/
structure PosState where
  file : List Nat
  current_pos : Nat
  invalid_count : Nat
  ret_val : Nat
deriving DecidableEq, Repr

/-- Lines 534-573: the record at `current_pos` is sought, read, checked and, in update mode,
written back when it changed.  A failed seek or a short read leaves everything as it is. -/
def check_record (cfg : Config) (st : PosState) : PosState :=
  if fseek_ok st.current_pos then
    let buffer := fread st.file st.current_pos cfg.RECORD_SIZE
    if buffer.length != cfg.RECORD_SIZE then st
    else
      let r := pos_record cfg buffer st.invalid_count
      let file1 :=
        if cfg.UPDATE_FLAG && r.writebuf != buffer then fwrite st.file st.current_pos r.writebuf
        else st.file
      { st with file := file1, invalid_count := r.invalid_count }
  else st

/-! ## The offset list (lines 516-533) -/

/-- The C library test `isspace` in the "C" locale. -/
def isspace (c : Nat) : Bool :=
  c == 32 || (decide (9 ≤ c) && decide (c ≤ 13))

/-- Value of the longest prefix of decimal digits, accumulated from `acc`. -/
def digits_value : List Nat → Nat → Nat
  | [], acc => acc
  | c :: rest, acc =>
    if decide (48 ≤ c) && decide (c ≤ 57) then digits_value rest (acc * 10 + (c - 48)) else acc

/-- The C library call `strtoll(s, NULL, 10)`: white space, an optional sign, decimal digits,
the value clamped to the range of `long long`. -/
def strtoll (s : List Nat) : Int :=
  match s.dropWhile isspace with
  | 45 :: rest => max (-(2 ^ 63 : Int)) (-(digits_value rest 0 : Int))
  | 43 :: rest => min (2 ^ 63 - 1 : Int) (digits_value rest 0 : Int)
  | rest => min (2 ^ 63 - 1 : Int) (digits_value rest 0 : Int)

/-- The cast `(size_t)` of a `long long`. -/
def to_size_t (v : Int) : Nat :=
  (v % (2 ^ 64 : Int)).toNat

/-- One line of the offset list (lines 518-525) followed by the record check: a line that
`is_number` rejects sets `ret_val` and keeps `current_pos`. -/
def list_line (cfg : Config) ( is_number : List Nat → Bool) (st : PosState)
    (input_pos : List Nat) : PosState :=
  let st1 : PosState :=
    if !is_number input_pos then { st with ret_val := 1 }
    else { st with current_pos := to_size_t (strtoll input_pos) }
  check_record cfg st1

/-- The iterations of the loop of line 512 that read the offset list, until `fgets` returns
`NULL`. -/
def list_loop (cfg : Config) ( is_number : List Nat → Bool) :
    List (List Nat) → PosState → PosState
  | [], st => st
  | input_pos :: rest, st => list_loop cfg is_number rest (list_line cfg is_number st input_pos)

/-- The positional branch of `process_file` (lines 512-574): the single position first, then
the offset list when an input file is open. -/
def positional (cfg : Config) ( is_number : List Nat → Bool) (input : Option (List (List Nat)))
    (file : List Nat) : PosState :=
  let st0 : PosState := { file := file, current_pos := 0, invalid_count := 0, ret_val := 0 }
  let st1 : PosState :=
    if cfg.POSITION_SET then check_record cfg { st0 with current_pos := cfg.RECORD_POSITION }
    else st0
  match input with
  | none => st1
  | some lines => list_loop cfg is_number lines st1

/-! ## process_file -/

/-- What a call of `process_file` leaves: the data file, the number printed as
"Number of invalid characters processed", and the return value. -/
structure Outcome where
  file : List Nat
  invalid_count : Nat
  ret_val : Nat
deriving DecidableEq, Repr

/-- The function `process_file` (lines 399-582) on an opened data file.  `input` is `none` when
`INPUTFILE` is empty.  The whole-file loop needs at most `file.length + 1` evaluations of its
condition when `RECORD_SIZE ≥ 1`; with `RECORD_SIZE = 0` it never ends (`fread` of nothing
returns 0, which equals `RECORD_SIZE`), and the result is `none`. -/
def process_file (cfg : Config) ( is_number : List Nat → Bool) (input : Option (List (List Nat)))
    (file : List Nat) : Option Outcome :=
  if cfg.FULL_DETECTION_FLAG || cfg.ZERO_DETECTION_FLAG then
    (scan_loop cfg (file.length + 1) { file := file, file_pos := 0, invalid_count := 0 }).map
      fun st => { file := st.file, invalid_count := st.invalid_count, ret_val := 0 }
  else
    let st := positional cfg is_number input file
    some { file := st.file, invalid_count := st.invalid_count, ret_val := st.ret_val }

/-- Modelled from the spec: `is_number` of `filelib.h`, which is not among the sources.  The
spec asks that a line "must parse as a non-negative integer offset": a non-empty run of
decimal digits. -/
def is_number_spec (s : List Nat) : Bool :=
  !s.isEmpty && s.all fun c => decide (48 ≤ c) && decide (c ≤ 57)

/-! ## What the byte loops leave, byte by byte -/

/-- The byte that the loop of lines 447-481 leaves at index `i` when `buffer[i]` is `c`. -/
def scan_fix (cfg : Config) (i c : Nat) : Nat :=
  if invalid_scan cfg.RECORD_SIZE i c then
    if c != NULL_VALUE && cfg.FULL_DETECTION_FLAG then cfg.FILL_VALUE
    else if c == NULL_VALUE && cfg.ZERO_DETECTION_FLAG then NULL_FILL_VALUE
    else c
  else c

/-- Whether the loop of lines 447-481 increments `null_count` at index `i` for the byte `c`. -/
def scan_null (cfg : Config) (i c : Nat) : Bool :=
  invalid_scan cfg.RECORD_SIZE i c && (c == NULL_VALUE && cfg.ZERO_DETECTION_FLAG)

/-- Whether the loop of lines 447-481 increments `invalid_count` at index `i` for the byte `c`. -/
def scan_hit (cfg : Config) (i c : Nat) : Bool :=
  invalid_scan cfg.RECORD_SIZE i c &&
    ((c == NULL_VALUE && cfg.ZERO_DETECTION_FLAG) || (c != NULL_VALUE && cfg.FULL_DETECTION_FLAG))

/-- The byte that the loop of lines 552-560 leaves at index `i` when `buffer[i]` is `c`. -/
def pos_fix (cfg : Config) (i c : Nat) : Nat :=
  if invalid_pos cfg.RECORD_SIZE i c then cfg.FILL_VALUE else c

/-! ## The two loops as functions of the bytes they visit -/

/-- The whole-file loop seen from `file_pos` on, for `k` complete records: the bytes it leaves
from there to the end of the file, and the count.  Each record is replaced by what line 499
writes, or stays when nothing is written. -/
def scan_chunks (cfg : Config) : Nat → List Nat → Nat → List Nat × Nat
  | 0, rest, n => (rest, n)
  | k + 1, rest, n =>
    let buffer := rest.take cfg.RECORD_SIZE
    let r := scan_record cfg buffer n
    let out := if cfg.UPDATE_FLAG && r.writebuf != buffer then r.writebuf else buffer
    let tail := scan_chunks cfg k (rest.drop cfg.RECORD_SIZE) r.invalid_count
    (out ++ tail.1, tail.2)

/-- The values of `current_pos` with which the loop of line 512 reaches line 534 while it reads
the offset list: a rejected line repeats the value before it. -/
def list_offsets ( is_number : List Nat → Bool) : List (List Nat) → Nat → List Nat
  | [], _ => []
  | input_pos :: rest, current_pos =>
    let p := if is_number input_pos then to_size_t (strtoll input_pos) else current_pos
    p :: list_offsets is_number rest p

/-- All values of `current_pos` with which the positional branch reaches line 534, in order. -/
def offsets (cfg : Config) ( is_number : List Nat → Bool) (input : Option (List (List Nat))) :
    List Nat :=
  (if cfg.POSITION_SET then [cfg.RECORD_POSITION] else []) ++
    match input with
    | none => []
    | some lines =>
      list_offsets is_number lines (if cfg.POSITION_SET then cfg.RECORD_POSITION else 0)

/-- File and count after `check_record` at each of the given offsets in turn. -/
def check_all (cfg : Config) : List Nat → List Nat × Nat → List Nat × Nat
  | [], fc => fc
  | p :: rest, fc =>
    let st := check_record cfg
      { file := fc.1, current_pos := p, invalid_count := fc.2, ret_val := 0 }
    check_all cfg rest (st.file, st.invalid_count)

/-- Whether the record at offset `p` is read in full: the seek succeeds and `RECORD_SIZE` bytes
exist from `p` on. -/
def read_in_full (cfg : Config) (len p : Nat) : Bool :=
  fseek_ok p && decide (p + cfg.RECORD_SIZE ≤ len)

/-- The record at offset `p`, when it is read in full, has no byte that the positional test
rejects. -/
def tidy (cfg : Config) (file : List Nat) (p : Nat) : Prop :=
  read_in_full cfg file.length p = true →
    ∀ (j c : Nat), j < cfg.RECORD_SIZE → file[p + j]? = some c →
      invalid_pos cfg.RECORD_SIZE j c = false

/-- Offsets of the records that `process_file` reads in full on a data file of `len` bytes:
every multiple of `RECORD_SIZE` that leaves room for a record in the whole-file scan, and the
positional offsets at which the seek succeeds and the record fits. -/
def records_read (cfg : Config) ( is_number : List Nat → Bool)
    (input : Option (List (List Nat))) (len : Nat) : List Nat :=
  if cfg.FULL_DETECTION_FLAG || cfg.ZERO_DETECTION_FLAG then
    (List.range (len / cfg.RECORD_SIZE)).map fun k => k * cfg.RECORD_SIZE
  else (offsets cfg is_number input).filter (read_in_full cfg len)

/-! ## set_fill_val (lines 240-257) -/

/-- Initial value of the global `FILL_VALUE` (line 67). -/
def FILL_VALUE : Nat := 32

/-- The conversion of a `size_t` to `int` in `param_val = (size_t) strtoll(...)`: the low 32
bits, read in two's complement. -/
def to_int (v : Nat) : Int :=
  if v % 2 ^ 32 < 2 ^ 31 then ((v % 2 ^ 32 : Nat) : Int) else ((v % 2 ^ 32 : Nat) : Int) - 2 ^ 32

/-- The conversion of an `int` to `unsigned int` that the comparisons with `VALID_START` and
`VALID_END` (both `unsigned int`) apply to `param_val`. -/
def to_unsigned (v : Int) : Nat :=
  (v % (2 ^ 32 : Int)).toNat

/-- The conversion of an `int` to `unsigned char` in `FILL_VALUE = param_val`. -/
def to_unsigned_char (v : Int) : Nat :=
  (v % (2 ^ 8 : Int)).toNat

/-- What a call of `set_fill_val` leaves: its return value and the global `FILL_VALUE`. -/
structure FillState where
  ret_val : Nat
  FILL_VALUE : Nat
deriving DecidableEq, Repr

/-- The function `set_fill_val` (lines 240-257), called with the global `FILL_VALUE` at `fill`. -/
def set_fill_val ( is_number : List Nat → Bool) (param : List Nat) (fill : Nat) : FillState :=
  if is_number param then
    let param_val : Int := to_int (to_size_t (strtoll param))
    if decide (to_unsigned param_val ≥ VALID_START) && decide (to_unsigned param_val ≤ VALID_END)
    then { ret_val := 0, FILL_VALUE := to_unsigned_char param_val }
    else { ret_val := 1, FILL_VALUE := fill }
  else { ret_val := 1, FILL_VALUE := fill }

end Filefix

open Filefix

/-! ## Lemmas on the byte loops -/

theorem getD_of_getElem? (l : List Nat) (i c : Nat) (h : l[i]? = some c) : l.getD i 0 = c := by
  rw [List.getD_eq_getElem?_getD, h]; rfl

theorem scan_byte_length (cfg : Config) (buffer : List Nat) (st : RecState) (i : Nat) :
    (scan_byte cfg buffer st i).writebuf.length = st.writebuf.length := by
  unfold scan_byte
  simp only []
  split_ifs <;> simp

theorem scan_byte_other (cfg : Config) (buffer : List Nat) (st : RecState) (i j : Nat)
    (h : j ≠ i) : (scan_byte cfg buffer st i).writebuf[j]? = st.writebuf[j]? := by
  have h2 : i ≠ j := fun e => h e.symm
  unfold scan_byte
  simp only []
  split_ifs <;> simp [List.getElem?_set, h2]

theorem scan_byte_here (cfg : Config) (buffer : List Nat) (st : RecState) (i : Nat)
    (h : st.writebuf[i]? = buffer[i]?) :
    (scan_byte cfg buffer st i).writebuf[i]? = (buffer[i]?).map (scan_fix cfg i) := by
  have hlen : i < st.writebuf.length ↔ i < buffer.length := by
    constructor
    · intro hi
      by_contra hc
      rw [List.getElem?_eq_none (l := buffer) (by omega), List.getElem?_eq_getElem hi] at h
      exact absurd h (by simp)
    · intro hi
      by_contra hc
      rw [List.getElem?_eq_none (l := st.writebuf) (by omega), List.getElem?_eq_getElem hi] at h
      exact absurd h (by simp)
  by_cases hi : i < buffer.length
  · have hb : buffer[i]? = some buffer[i] := List.getElem?_eq_getElem hi
    have hg : buffer.getD i 0 = buffer[i] := getD_of_getElem? _ _ _ hb
    have hw : i < st.writebuf.length := hlen.mpr hi
    unfold scan_byte scan_fix
    simp only [hg, hb, Option.map_some']
    split_ifs <;> simp_all [List.getElem?_set]
  · have hb : buffer[i]? = none := List.getElem?_eq_none (by omega)
    have hw : ¬ i < st.writebuf.length := fun hh => hi (hlen.mp hh)
    rw [hb, Option.map_none']
    unfold scan_byte
    simp only []
    split_ifs <;> simp_all [List.getElem?_set]

theorem scan_byte_null (cfg : Config) (buffer : List Nat) (st : RecState) (i : Nat) :
    (scan_byte cfg buffer st i).null_count =
      st.null_count + if scan_null cfg i (buffer.getD i 0) then 1 else 0 := by
  unfold scan_byte scan_null
  generalize buffer.getD i 0 = c
  cases hinv : invalid_scan cfg.RECORD_SIZE i c <;>
    cases hz : cfg.ZERO_DETECTION_FLAG <;> cases hf : cfg.FULL_DETECTION_FLAG <;>
    by_cases hc : c = NULL_VALUE <;> simp_all

theorem scan_byte_count (cfg : Config) (buffer : List Nat) (st : RecState) (i : Nat) :
    (scan_byte cfg buffer st i).invalid_count =
      st.invalid_count + if scan_hit cfg i (buffer.getD i 0) then 1 else 0 := by
  unfold scan_byte scan_hit
  generalize buffer.getD i 0 = c
  cases hinv : invalid_scan cfg.RECORD_SIZE i c <;>
    cases hz : cfg.ZERO_DETECTION_FLAG <;> cases hf : cfg.FULL_DETECTION_FLAG <;>
    by_cases hc : c = NULL_VALUE <;> simp_all

/-- Loop invariant of the `for` loop of lines 447-481 after `k` iterations. -/
theorem scan_fold_inv (cfg : Config) (buffer : List Nat) (n k : Nat) :
    let st := (List.range k).foldl (scan_byte cfg buffer)
      { writebuf := buffer, null_count := 0, invalid_count := n }
    st.writebuf.length = buffer.length ∧
    (∀ j, st.writebuf[j]? = if j < k then (buffer[j]?).map (scan_fix cfg j) else buffer[j]?) ∧
    st.null_count = (List.range k).countP (fun i => scan_null cfg i (buffer.getD i 0)) ∧
    st.invalid_count = n + (List.range k).countP (fun i => scan_hit cfg i (buffer.getD i 0)) := by
  induction k with
  | zero => simp
  | succ k ih =>
    simp only [List.range_succ, List.foldl_append, List.foldl_cons, List.foldl_nil,
      List.countP_append, List.countP_cons, List.countP_nil] at ih ⊢
    obtain ⟨h1, h2, h3, h4⟩ := ih
    refine ⟨?_, ?_, ?_, ?_⟩
    · rw [scan_byte_length, h1]
    · intro j
      by_cases hj : j = k
      · subst hj
        rw [scan_byte_here _ _ _ _ (by rw [h2 j]; simp)]
        simp
      · rw [scan_byte_other _ _ _ _ _ hj, h2 j]
        by_cases hjk : j < k
        · simp [hjk, Nat.lt_succ_of_lt hjk]
        · have : ¬ j < k + 1 := by omega
          simp [hjk, this]
    · rw [scan_byte_null, h3]; simp
    · rw [scan_byte_count, h4]; simp [Nat.add_assoc]

theorem pos_byte_length (cfg : Config) (buffer : List Nat) (st : PosRec) (i : Nat) :
    (pos_byte cfg buffer st i).writebuf.length = st.writebuf.length := by
  unfold pos_byte
  simp only []
  split_ifs <;> simp

theorem pos_byte_other (cfg : Config) (buffer : List Nat) (st : PosRec) (i j : Nat)
    (h : j ≠ i) : (pos_byte cfg buffer st i).writebuf[j]? = st.writebuf[j]? := by
  have h2 : i ≠ j := fun e => h e.symm
  unfold pos_byte
  simp only []
  split_ifs <;> simp [List.getElem?_set, h2]

theorem pos_byte_here (cfg : Config) (buffer : List Nat) (st : PosRec) (i : Nat)
    (h : st.writebuf[i]? = buffer[i]?) :
    (pos_byte cfg buffer st i).writebuf[i]? = (buffer[i]?).map (pos_fix cfg i) := by
  by_cases hi : i < buffer.length
  · have hb : buffer[i]? = some buffer[i] := List.getElem?_eq_getElem hi
    have hg : buffer.getD i 0 = buffer[i] := getD_of_getElem? _ _ _ hb
    have hw : i < st.writebuf.length := by
      by_contra hc
      rw [List.getElem?_eq_none (l := st.writebuf) (by omega), hb] at h
      exact absurd h (by simp)
    unfold pos_byte pos_fix
    simp only [hg, hb, Option.map_some']
    split_ifs <;> simp_all [List.getElem?_set]
  · have hb : buffer[i]? = none := List.getElem?_eq_none (by omega)
    have hw : ¬ i < st.writebuf.length := by
      intro hc
      rw [List.getElem?_eq_getElem hc, hb] at h
      exact absurd h (by simp)
    rw [hb, Option.map_none']
    unfold pos_byte
    simp only []
    split_ifs <;> simp_all [List.getElem?_set]

theorem pos_byte_count (cfg : Config) (buffer : List Nat) (st : PosRec) (i : Nat) :
    (pos_byte cfg buffer st i).invalid_count =
      st.invalid_count + if invalid_pos cfg.RECORD_SIZE i (buffer.getD i 0) then 1 else 0 := by
  unfold pos_byte
  generalize buffer.getD i 0 = c
  cases hinv : invalid_pos cfg.RECORD_SIZE i c <;> simp_all

/-- Loop invariant of the `for` loop of lines 552-560 after `k` iterations. -/
theorem pos_fold_inv (cfg : Config) (buffer : List Nat) (n k : Nat) :
    let st := (List.range k).foldl (pos_byte cfg buffer)
      { writebuf := buffer, invalid_count := n }
    st.writebuf.length = buffer.length ∧
    (∀ j, st.writebuf[j]? = if j < k then (buffer[j]?).map (pos_fix cfg j) else buffer[j]?) ∧
    st.invalid_count =
      n + (List.range k).countP (fun i => invalid_pos cfg.RECORD_SIZE i (buffer.getD i 0)) := by
  induction k with
  | zero => simp
  | succ k ih =>
    simp only [List.range_succ, List.foldl_append, List.foldl_cons, List.foldl_nil,
      List.countP_append, List.countP_cons, List.countP_nil] at ih ⊢
    obtain ⟨h1, h2, h4⟩ := ih
    refine ⟨?_, ?_, ?_⟩
    · rw [pos_byte_length, h1]
    · intro j
      by_cases hj : j = k
      · subst hj
        rw [pos_byte_here _ _ _ _ (by rw [h2 j]; simp)]
        simp
      · rw [pos_byte_other _ _ _ _ _ hj, h2 j]
        by_cases hjk : j < k
        · simp [hjk, Nat.lt_succ_of_lt hjk]
        · have : ¬ j < k + 1 := by omega
          simp [hjk, this]
    · rw [pos_byte_count, h4]; simp [Nat.add_assoc]

/-! ## The repaired record in closed form -/

theorem scan_bytes_writebuf (cfg : Config) (buffer : List Nat) (n : Nat)
    (hlen : buffer.length = cfg.RECORD_SIZE) :
    (scan_bytes cfg buffer n).writebuf = buffer.mapIdx (scan_fix cfg) := by
  apply List.ext_getElem?
  intro j
  rw [scan_bytes, (scan_fold_inv cfg buffer n cfg.RECORD_SIZE).2.1 j, List.getElem?_mapIdx]
  by_cases hj : j < cfg.RECORD_SIZE
  · simp [hj]
  · have hb : buffer[j]? = none := List.getElem?_eq_none (by omega)
    simp [hj, hb]

theorem scan_bytes_null (cfg : Config) (buffer : List Nat) (n : Nat) :
    (scan_bytes cfg buffer n).null_count =
      (List.range cfg.RECORD_SIZE).countP (fun i => scan_null cfg i (buffer.getD i 0)) :=
  (scan_fold_inv cfg buffer n cfg.RECORD_SIZE).2.2.1

theorem scan_bytes_count (cfg : Config) (buffer : List Nat) (n : Nat) :
    (scan_bytes cfg buffer n).invalid_count =
      n + (List.range cfg.RECORD_SIZE).countP (fun i => scan_hit cfg i (buffer.getD i 0)) :=
  (scan_fold_inv cfg buffer n cfg.RECORD_SIZE).2.2.2

theorem pos_record_writebuf (cfg : Config) (buffer : List Nat) (n : Nat)
    (hlen : buffer.length = cfg.RECORD_SIZE) :
    (pos_record cfg buffer n).writebuf = buffer.mapIdx (pos_fix cfg) := by
  apply List.ext_getElem?
  intro j
  rw [pos_record, (pos_fold_inv cfg buffer n cfg.RECORD_SIZE).2.1 j, List.getElem?_mapIdx]
  by_cases hj : j < cfg.RECORD_SIZE
  · simp [hj]
  · have hb : buffer[j]? = none := List.getElem?_eq_none (by omega)
    simp [hj, hb]

theorem pos_record_count (cfg : Config) (buffer : List Nat) (n : Nat) :
    (pos_record cfg buffer n).invalid_count =
      n + (List.range cfg.RECORD_SIZE).countP
        (fun i => invalid_pos cfg.RECORD_SIZE i (buffer.getD i 0)) :=
  (pos_fold_inv cfg buffer n cfg.RECORD_SIZE).2.2

/-- Counting over the indices of a list a property of the byte alone counts the bytes. -/
theorem countP_range_getD (p : Nat → Bool) (l : List Nat) :
    (List.range l.length).countP (fun i => p (l.getD i 0)) = l.countP p := by
  induction l with
  | nil => simp
  | cons a t ih =>
    rw [List.length_cons, List.range_succ_eq_map, List.countP_cons, List.countP_cons,
      List.countP_map]
    simp only [List.getD_cons_zero]
    have : ((fun i => p ((a :: t).getD i 0)) ∘ Nat.succ) = fun i => p (t.getD i 0) := by
      funext i; simp
    rw [this, ih]

theorem invalid_scan_null (RS i : Nat) : invalid_scan RS i 0 = true := by
  simp [invalid_scan, VALID_START, VALID_END, END_OF_RECORD, END_OF_RECORD_CR]

theorem scan_null_eq (cfg : Config) (i c : Nat) :
    scan_null cfg i c = (cfg.ZERO_DETECTION_FLAG && c == 0) := by
  unfold scan_null
  by_cases hc : c = 0
  · subst hc; simp [invalid_scan_null, NULL_VALUE, Bool.and_comm]
  · have hb : (c == 0) = false := beq_false_of_ne hc
    simp [NULL_VALUE, hb]

/-- With zero-detection on, `null_count` ends as the number of null bytes of the record. -/
theorem scan_bytes_null_count (cfg : Config) (buffer : List Nat) (n : Nat)
    (hz : cfg.ZERO_DETECTION_FLAG = true) (hlen : buffer.length = cfg.RECORD_SIZE) :
    (scan_bytes cfg buffer n).null_count = buffer.count 0 := by
  have h := countP_range_getD (fun x => x == 0) buffer
  rw [scan_bytes_null, ← hlen, List.count_eq_countP, ← h]
  congr 1
  funext i
  rw [scan_null_eq, hz]; simp

/-! ## The invalidity tests in words -/

theorem invalid_scan_iff (RS i c : Nat) :
    invalid_scan RS i c = true ↔
      (c < 32 ∨ 126 < c) ∧ ¬ ((c = 250 ∨ c = 10) ∧ i = RS - 1) := by
  unfold invalid_scan
  simp only [VALID_START, VALID_END, END_OF_RECORD, END_OF_RECORD_CR, Bool.and_eq_true,
    Bool.or_eq_true, decide_eq_true_eq, bne_iff_ne, beq_iff_eq, ne_eq, gt_iff_lt]
  tauto

theorem invalid_pos_iff (RS i c : Nat) :
    invalid_pos RS i c = true ↔
      (c < 32 ∨ 126 < c) ∧ ¬ ((c = 250 ∨ c = 10) ∧ i = RS - 1) := by
  unfold invalid_pos
  simp only [VALID_START, VALID_END, END_OF_RECORD, END_OF_RECORD_CR, Bool.and_eq_true,
    Bool.or_eq_true, decide_eq_true_eq, bne_iff_ne, beq_iff_eq, ne_eq, gt_iff_lt]
  tauto

theorem pos_fix_eq (cfg : Config) (i c : Nat) :
    pos_fix cfg i c =
      if (c < 32 ∨ 126 < c) ∧ ¬ ((c = 250 ∨ c = 10) ∧ i = cfg.RECORD_SIZE - 1)
      then cfg.FILL_VALUE else c := by
  unfold pos_fix
  by_cases h : invalid_pos cfg.RECORD_SIZE i c = true
  · rw [if_pos h, if_pos ((invalid_pos_iff _ _ _).mp h)]
  · rw [if_neg h, if_neg (fun hh => h ((invalid_pos_iff _ _ _).mpr hh))]

theorem scan_fix_eq (cfg : Config) (i c : Nat) :
    scan_fix cfg i c =
      if c = 0 then (if cfg.ZERO_DETECTION_FLAG = true then 255 else 0)
      else if cfg.FULL_DETECTION_FLAG = true ∧ (c < 32 ∨ 126 < c) ∧
          ¬ ((c = 250 ∨ c = 10) ∧ i = cfg.RECORD_SIZE - 1)
        then cfg.FILL_VALUE else c := by
  unfold scan_fix
  by_cases hc : c = 0
  · subst hc
    simp [invalid_scan_null, NULL_VALUE, NULL_FILL_VALUE]
  · have hb : (c == 0) = false := beq_false_of_ne hc
    have hb2 : (c != 0) = true := by simp [bne, hb]
    simp only [NULL_VALUE, hb, hb2, Bool.true_and, Bool.false_and, if_neg hc]
    by_cases h : invalid_scan cfg.RECORD_SIZE i c = true
    · have h2 := (invalid_scan_iff _ _ _).mp h
      cases hf : cfg.FULL_DETECTION_FLAG <;> simp [h, h2]
    · have h2 : ¬ ((c < 32 ∨ 126 < c) ∧ ¬ ((c = 250 ∨ c = 10) ∧ i = cfg.RECORD_SIZE - 1)) :=
        fun hh => h ((invalid_scan_iff _ _ _).mpr hh)
      rw [if_neg h, if_neg (fun hh => h2 hh.2)]

theorem scan_hit_eq (cfg : Config) (i c : Nat) :
    scan_hit cfg i c =
      if c = 0 then cfg.ZERO_DETECTION_FLAG
      else cfg.FULL_DETECTION_FLAG && decide ((c < 32 ∨ 126 < c) ∧
          ¬ ((c = 250 ∨ c = 10) ∧ i = cfg.RECORD_SIZE - 1)) := by
  unfold scan_hit
  by_cases hc : c = 0
  · subst hc
    simp [invalid_scan_null, NULL_VALUE]
  · have hb : (c == 0) = false := beq_false_of_ne hc
    have hb2 : (c != 0) = true := by simp [bne, hb]
    simp only [NULL_VALUE, hb, hb2, Bool.true_and, Bool.false_and, if_neg hc, Bool.false_or]
    by_cases h : invalid_scan cfg.RECORD_SIZE i c = true
    · have h2 := (invalid_scan_iff _ _ _).mp h
      rw [h, decide_eq_true h2]; simp
    · have h2 : ¬ ((c < 32 ∨ 126 < c) ∧ ¬ ((c = 250 ∨ c = 10) ∧ i = cfg.RECORD_SIZE - 1)) :=
        fun hh => h ((invalid_scan_iff _ _ _).mpr hh)
      rw [Bool.not_eq_true] at h
      rw [h, decide_eq_false h2]; simp

theorem scan_record_writebuf (cfg : Config) (buffer : List Nat) (n : Nat)
    (hlen : buffer.length = cfg.RECORD_SIZE) :
    (scan_record cfg buffer n).writebuf =
      if delete_record cfg (scan_bytes cfg buffer n).null_count = true
      then List.replicate cfg.RECORD_SIZE NULL_FILL_VALUE
      else buffer.mapIdx (scan_fix cfg) := by
  unfold scan_record
  simp only []
  split_ifs with h
  · rfl
  · exact scan_bytes_writebuf cfg buffer n hlen

theorem scan_record_count (cfg : Config) (buffer : List Nat) (n : Nat) :
    (scan_record cfg buffer n).invalid_count =
      n + (List.range cfg.RECORD_SIZE).countP (fun i => scan_hit cfg i (buffer.getD i 0)) := by
  unfold scan_record
  simp only []
  split_ifs with h
  · exact scan_bytes_count cfg buffer n
  · exact scan_bytes_count cfg buffer n

theorem scan_record_length (cfg : Config) (buffer : List Nat) (n : Nat)
    (hlen : buffer.length = cfg.RECORD_SIZE) :
    (scan_record cfg buffer n).writebuf.length = cfg.RECORD_SIZE := by
  rw [scan_record_writebuf cfg buffer n hlen]
  split_ifs <;> simp [hlen]

theorem pos_record_length (cfg : Config) (buffer : List Nat) (n : Nat)
    (hlen : buffer.length = cfg.RECORD_SIZE) :
    (pos_record cfg buffer n).writebuf.length = cfg.RECORD_SIZE := by
  rw [pos_record_writebuf cfg buffer n hlen]; simp [hlen]

/-! ## Claims on one record -/

/-- C5. Threshold boundary of whole-record deletion.  With zero-detection active, a record with
exactly `DELETE_NULL_THRESHOLD` null bytes is repaired byte by byte (each null becomes 0xFF and,
when full-detection is on too, each other invalid byte the fill value; nothing else moves), a
record with exactly `DELETE_NULL_THRESHOLD + 1` null bytes becomes all 0xFF, and in general the
`memset` is taken if and only if the number of null bytes is strictly above the threshold. -/
theorem threshold_boundary (cfg : Config) (buffer : List Nat) (n : Nat)
    (hz : cfg.ZERO_DETECTION_FLAG = true) (hlen : buffer.length = cfg.RECORD_SIZE) :
    (buffer.count 0 = DELETE_NULL_THRESHOLD →
      (scan_record cfg buffer n).writebuf = buffer.mapIdx (fun i c =>
        if c = 0 then 255
        else if cfg.FULL_DETECTION_FLAG = true ∧ (c < 32 ∨ 126 < c) ∧
            ¬ ((c = 250 ∨ c = 10) ∧ i = cfg.RECORD_SIZE - 1)
          then cfg.FILL_VALUE else c)) ∧
    (buffer.count 0 = DELETE_NULL_THRESHOLD + 1 →
      (scan_record cfg buffer n).writebuf = List.replicate cfg.RECORD_SIZE 255) ∧
    (delete_record cfg (scan_bytes cfg buffer n).null_count = true ↔
      DELETE_NULL_THRESHOLD < buffer.count 0) ∧
    (scan_record cfg buffer n).writebuf =
      if DELETE_NULL_THRESHOLD < buffer.count 0 then List.replicate cfg.RECORD_SIZE 255
      else buffer.mapIdx (fun i c =>
        if c = 0 then 255
        else if cfg.FULL_DETECTION_FLAG = true ∧ (c < 32 ∨ 126 < c) ∧
            ¬ ((c = 250 ∨ c = 10) ∧ i = cfg.RECORD_SIZE - 1)
          then cfg.FILL_VALUE else c) := by
  have hfix : scan_fix cfg = fun i c =>
      if c = 0 then 255
      else if cfg.FULL_DETECTION_FLAG = true ∧ (c < 32 ∨ 126 < c) ∧
          ¬ ((c = 250 ∨ c = 10) ∧ i = cfg.RECORD_SIZE - 1)
        then cfg.FILL_VALUE else c := by
    funext i c
    rw [scan_fix_eq, if_pos hz]
  have hdel : delete_record cfg (scan_bytes cfg buffer n).null_count = true ↔
      DELETE_NULL_THRESHOLD < buffer.count 0 := by
    rw [scan_bytes_null_count cfg buffer n hz hlen]
    simp [delete_record, hz]
  have hgen := scan_record_writebuf cfg buffer n hlen
  rw [hfix] at hgen
  refine ⟨?_, ?_, hdel, ?_⟩
  · intro h
    rw [hgen, if_neg]
    rw [hdel, h]; exact Nat.lt_irrefl _
  · intro h
    rw [hgen, if_pos]
    · rfl
    · rw [hdel, h]; exact Nat.lt_succ_self _
  · rw [hgen]
    by_cases hd : DELETE_NULL_THRESHOLD < buffer.count 0
    · rw [if_pos (hdel.mpr hd), if_pos hd]; rfl
    · rw [if_neg (fun hh => hd (hdel.mp hh)), if_neg hd]

/-- Witness of C5: a record of ten null bytes and a terminator, zero-detection alone. -/
theorem threshold_boundary_witness :
    (⟨11, 32, 0, false, true, false, true⟩ : Config).ZERO_DETECTION_FLAG = true ∧
    ([0, 0, 0, 0, 0, 0, 0, 0, 0, 0, 250] : List Nat).length =
      (⟨11, 32, 0, false, true, false, true⟩ : Config).RECORD_SIZE ∧
    (scan_record ⟨11, 32, 0, false, true, false, true⟩
        [0, 0, 0, 0, 0, 0, 0, 0, 0, 0, 250] 0).writebuf =
      if DELETE_NULL_THRESHOLD < ([0, 0, 0, 0, 0, 0, 0, 0, 0, 0, 250] : List Nat).count 0
      then List.replicate 11 255
      else ([0, 0, 0, 0, 0, 0, 0, 0, 0, 0, 250] : List Nat).mapIdx (fun i c =>
        if c = 0 then 255
        else if false = true ∧ (c < 32 ∨ 126 < c) ∧ ¬ ((c = 250 ∨ c = 10) ∧ i = 11 - 1)
          then 32 else c) :=
  ⟨rfl, rfl, (threshold_boundary ⟨11, 32, 0, false, true, false, true⟩
    [0, 0, 0, 0, 0, 0, 0, 0, 0, 0, 250] 0 rfl rfl).2.2.2⟩

/-- C6 as the code has it.  A terminator value (250 or 10) in the last byte of a record is
classified valid by both scans; the positional repair and the byte loop of the whole-file scan
leave it as it is; the repaired record of the whole-file scan ends in it unless zero-detection
is on and the record has more than `DELETE_NULL_THRESHOLD` null bytes, when the whole record,
its last byte included, is 0xFF. -/
theorem terminator_kept (cfg : Config) (buffer : List Nat) (n c : Nat)
    (hRS : 1 ≤ cfg.RECORD_SIZE) (hlen : buffer.length = cfg.RECORD_SIZE)
    (hlast : buffer[cfg.RECORD_SIZE - 1]? = some c)
    (hc : c = END_OF_RECORD ∨ c = END_OF_RECORD_CR) :
    invalid_scan cfg.RECORD_SIZE (cfg.RECORD_SIZE - 1) c = false ∧
    invalid_pos cfg.RECORD_SIZE (cfg.RECORD_SIZE - 1) c = false ∧
    (pos_record cfg buffer n).writebuf[cfg.RECORD_SIZE - 1]? = some c ∧
    (scan_bytes cfg buffer n).writebuf[cfg.RECORD_SIZE - 1]? = some c ∧
    (scan_record cfg buffer n).writebuf[cfg.RECORD_SIZE - 1]? =
      some (if cfg.ZERO_DETECTION_FLAG = true ∧ DELETE_NULL_THRESHOLD < buffer.count 0
        then 255 else c) := by
  have hc2 : c = 250 ∨ c = 10 := hc
  have hs : invalid_scan cfg.RECORD_SIZE (cfg.RECORD_SIZE - 1) c = false := by
    rw [← Bool.not_eq_true, invalid_scan_iff]
    exact fun h => h.2 ⟨hc2, rfl⟩
  have hp : invalid_pos cfg.RECORD_SIZE (cfg.RECORD_SIZE - 1) c = false := by
    rw [← Bool.not_eq_true, invalid_pos_iff]
    exact fun h => h.2 ⟨hc2, rfl⟩
  have hpf : pos_fix cfg (cfg.RECORD_SIZE - 1) c = c := by simp [pos_fix, hp]
  have hsf : scan_fix cfg (cfg.RECORD_SIZE - 1) c = c := by simp [scan_fix, hs]
  have hbytes : (scan_bytes cfg buffer n).writebuf[cfg.RECORD_SIZE - 1]? = some c := by
    rw [scan_bytes_writebuf cfg buffer n hlen, List.getElem?_mapIdx, hlast, Option.map_some', hsf]
  refine ⟨hs, hp, ?_, hbytes, ?_⟩
  · rw [pos_record_writebuf cfg buffer n hlen, List.getElem?_mapIdx, hlast, Option.map_some', hpf]
  · cases hz : cfg.ZERO_DETECTION_FLAG
    · have hd : delete_record cfg (scan_bytes cfg buffer n).null_count = false := by
        simp [delete_record, hz]
      have hrec : scan_record cfg buffer n = scan_bytes cfg buffer n := by
        simp [scan_record, hd]
      rw [hrec, hbytes]; simp
    · by_cases hk : DELETE_NULL_THRESHOLD < buffer.count 0
      · have hd : delete_record cfg (scan_bytes cfg buffer n).null_count = true := by
          rw [scan_bytes_null_count cfg buffer n hz hlen]
          simp [delete_record, hz, hk]
        rw [scan_record_writebuf cfg buffer n hlen, if_pos hd, List.getElem?_replicate,
          if_pos (by omega)]
        simp [hk, NULL_FILL_VALUE]
      · have hd : ¬ delete_record cfg (scan_bytes cfg buffer n).null_count = true := by
          rw [scan_bytes_null_count cfg buffer n hz hlen]
          simp [delete_record, hz, hk]
        rw [scan_record_writebuf cfg buffer n hlen, if_neg hd, List.getElem?_mapIdx, hlast,
          Option.map_some', hsf]
        simp [hk]

/-- Witness of the amended C6: the record `A B 00 C D 00 E F FA` of nine bytes. -/
theorem terminator_kept_witness :
    1 ≤ (⟨9, 32, 0, false, true, true, true⟩ : Config).RECORD_SIZE ∧
    (scan_record ⟨9, 32, 0, false, true, true, true⟩
        [65, 66, 0, 67, 68, 0, 69, 70, 250] 0).writebuf[9 - 1]? =
      some (if true = true ∧
          DELETE_NULL_THRESHOLD < ([65, 66, 0, 67, 68, 0, 69, 70, 250] : List Nat).count 0
        then 255 else 250) :=
  ⟨by decide, (terminator_kept ⟨9, 32, 0, false, true, true, true⟩
    [65, 66, 0, 67, 68, 0, 69, 70, 250] 0 250 (by decide) rfl rfl (Or.inl rfl)).2.2.2.2⟩

/-- Counterexample to C6 as stated: zero-detection on a record of eleven null bytes followed
by the terminator 250 rewrites the terminator to 0xFF. -/
theorem terminator_overwritten :
    process_file ⟨12, 32, 0, false, true, false, true⟩ is_number_spec none
        [0, 0, 0, 0, 0, 0, 0, 0, 0, 0, 0, 250] =
      some ⟨[255, 255, 255, 255, 255, 255, 255, 255, 255, 255, 255, 255], 11, 0⟩ := by
  decide

/-- C7. Zero-detection alone on a record with at most `DELETE_NULL_THRESHOLD` null bytes: the
repaired record is the original with every 0x00 replaced by 0xFF and every other byte (the
terminator and the non-null bytes outside [32,126] too) unchanged, the record is not deleted,
and `invalid_count` grows by the number of null bytes. -/
theorem zero_detection_repair (cfg : Config) (buffer : List Nat) (n : Nat)
    (hz : cfg.ZERO_DETECTION_FLAG = true) (hf : cfg.FULL_DETECTION_FLAG = false)
    (hlen : buffer.length = cfg.RECORD_SIZE)
    (hk : buffer.count 0 ≤ DELETE_NULL_THRESHOLD) :
    (scan_record cfg buffer n).writebuf = buffer.map (fun c => if c = 0 then 255 else c) ∧
    delete_record cfg (scan_bytes cfg buffer n).null_count = false ∧
    (scan_record cfg buffer n).invalid_count = n + buffer.count 0 := by
  have hd : delete_record cfg (scan_bytes cfg buffer n).null_count = false := by
    rw [scan_bytes_null_count cfg buffer n hz hlen]
    simp [delete_record, hz, hk]
  refine ⟨?_, hd, ?_⟩
  · rw [scan_record_writebuf cfg buffer n hlen, hd]
    simp only [Bool.false_eq_true, if_false]
    apply List.ext_getElem?
    intro j
    rw [List.getElem?_mapIdx, List.getElem?_map]
    congr 1
    funext c
    rw [scan_fix_eq, if_pos hz, hf]
    simp
  · have h := countP_range_getD (fun x => x == 0) buffer
    rw [scan_record_count, ← hlen, List.count_eq_countP, ← h]
    congr 2
    funext i
    rw [scan_hit_eq, hz, hf]
    generalize buffer.getD i 0 = c
    by_cases h0 : c = 0
    · subst h0; simp
    · simp [h0]

/-- Witness of C7: the record `A B 00 C D 00 E F FA`. -/
theorem zero_detection_repair_witness :
    ([65, 66, 0, 67, 68, 0, 69, 70, 250] : List Nat).count 0 ≤ DELETE_NULL_THRESHOLD ∧
    ((scan_record ⟨9, 32, 0, false, true, false, true⟩
        [65, 66, 0, 67, 68, 0, 69, 70, 250] 0).writebuf =
      ([65, 66, 0, 67, 68, 0, 69, 70, 250] : List Nat).map (fun c => if c = 0 then 255 else c) ∧
    delete_record ⟨9, 32, 0, false, true, false, true⟩
      (scan_bytes ⟨9, 32, 0, false, true, false, true⟩
        [65, 66, 0, 67, 68, 0, 69, 70, 250] 0).null_count = false ∧
    (scan_record ⟨9, 32, 0, false, true, false, true⟩
        [65, 66, 0, 67, 68, 0, 69, 70, 250] 0).invalid_count =
      0 + ([65, 66, 0, 67, 68, 0, 69, 70, 250] : List Nat).count 0) ∧
    process_file ⟨9, 32, 0, false, true, false, true⟩ is_number_spec none
        [65, 66, 0, 67, 68, 0, 69, 70, 250] =
      some ⟨[65, 66, 255, 67, 68, 255, 69, 70, 250], 2, 0⟩ :=
  ⟨by decide, zero_detection_repair ⟨9, 32, 0, false, true, false, true⟩
    [65, 66, 0, 67, 68, 0, 69, 70, 250] 0 rfl rfl rfl (by decide), by decide⟩

/-- C8. Full-detection alone: the repaired record is the original with every byte that is
outside [32,126], is not 0x00 and is not a terminator value in the last position replaced by
the fill value; null bytes and all other bytes stay, and `invalid_count` grows by the number of
replaced bytes. -/
theorem full_detection_repair (cfg : Config) (buffer : List Nat) (n : Nat)
    (hz : cfg.ZERO_DETECTION_FLAG = false) (hf : cfg.FULL_DETECTION_FLAG = true)
    (hlen : buffer.length = cfg.RECORD_SIZE) :
    (scan_record cfg buffer n).writebuf = buffer.mapIdx (fun i c =>
      if (c < 32 ∨ 126 < c) ∧ c ≠ 0 ∧ ¬ ((c = 250 ∨ c = 10) ∧ i = cfg.RECORD_SIZE - 1)
      then cfg.FILL_VALUE else c) ∧
    (scan_record cfg buffer n).invalid_count =
      n + (List.range cfg.RECORD_SIZE).countP (fun i =>
        decide ((buffer.getD i 0 < 32 ∨ 126 < buffer.getD i 0) ∧ buffer.getD i 0 ≠ 0 ∧
          ¬ ((buffer.getD i 0 = 250 ∨ buffer.getD i 0 = 10) ∧ i = cfg.RECORD_SIZE - 1))) := by
  have hd : delete_record cfg (scan_bytes cfg buffer n).null_count = false := by
    simp [delete_record, hz]
  constructor
  · rw [scan_record_writebuf cfg buffer n hlen, hd]
    simp only [Bool.false_eq_true, if_false]
    congr 1
    funext i c
    rw [scan_fix_eq, hz, hf]
    by_cases h0 : c = 0
    · simp [h0]
    · simp [h0]
  · rw [scan_record_count]
    congr 2
    funext i
    rw [scan_hit_eq, hz, hf]
    generalize buffer.getD i 0 = c
    by_cases h0 : c = 0
    · subst h0; simp
    · simp [h0]

/-- Witness of C8: the record `A B 00 C D 00 E F FA` with the byte 0x07 in place of `D`. -/
theorem full_detection_repair_witness :
    (⟨9, 32, 0, false, true, true, false⟩ : Config).FULL_DETECTION_FLAG = true ∧
    ((scan_record ⟨9, 32, 0, false, true, true, false⟩
        [65, 66, 0, 67, 7, 0, 69, 70, 250] 0).writebuf =
      ([65, 66, 0, 67, 7, 0, 69, 70, 250] : List Nat).mapIdx (fun i c =>
        if (c < 32 ∨ 126 < c) ∧ c ≠ 0 ∧ ¬ ((c = 250 ∨ c = 10) ∧ i = 9 - 1) then 32 else c) ∧
    (scan_record ⟨9, 32, 0, false, true, true, false⟩
        [65, 66, 0, 67, 7, 0, 69, 70, 250] 0).invalid_count =
      0 + (List.range 9).countP (fun i =>
        decide ((([65, 66, 0, 67, 7, 0, 69, 70, 250] : List Nat).getD i 0 < 32 ∨
            126 < ([65, 66, 0, 67, 7, 0, 69, 70, 250] : List Nat).getD i 0) ∧
          ([65, 66, 0, 67, 7, 0, 69, 70, 250] : List Nat).getD i 0 ≠ 0 ∧
          ¬ ((([65, 66, 0, 67, 7, 0, 69, 70, 250] : List Nat).getD i 0 = 250 ∨
            ([65, 66, 0, 67, 7, 0, 69, 70, 250] : List Nat).getD i 0 = 10) ∧ i = 9 - 1)))) ∧
    process_file ⟨9, 32, 0, false, true, true, false⟩ is_number_spec none
        [65, 66, 0, 67, 7, 0, 69, 70, 250] =
      some ⟨[65, 66, 0, 67, 32, 0, 69, 70, 250], 1, 0⟩ :=
  ⟨rfl, full_detection_repair ⟨9, 32, 0, false, true, true, false⟩
    [65, 66, 0, 67, 7, 0, 69, 70, 250] 0 rfl rfl rfl, by decide⟩

/-- C9. Positional repair: the repaired record is the original with every byte that is outside
[32,126] and is not a terminator value (250 or 10) in the last position replaced by the fill
value, null bytes included; all other bytes stay, and `invalid_count` grows by the number of
replaced bytes. -/
theorem positional_repair (cfg : Config) (buffer : List Nat) (n : Nat)
    (hlen : buffer.length = cfg.RECORD_SIZE) :
    (pos_record cfg buffer n).writebuf = buffer.mapIdx (fun i c =>
      if (c < 32 ∨ 126 < c) ∧ ¬ ((c = 250 ∨ c = 10) ∧ i = cfg.RECORD_SIZE - 1)
      then cfg.FILL_VALUE else c) ∧
    (∀ i : Nat, buffer[i]? = some 0 →
      (pos_record cfg buffer n).writebuf[i]? = some cfg.FILL_VALUE) ∧
    (pos_record cfg buffer n).invalid_count =
      n + (List.range cfg.RECORD_SIZE).countP (fun i =>
        decide ((buffer.getD i 0 < 32 ∨ 126 < buffer.getD i 0) ∧
          ¬ ((buffer.getD i 0 = 250 ∨ buffer.getD i 0 = 10) ∧ i = cfg.RECORD_SIZE - 1))) := by
  have hw : (pos_record cfg buffer n).writebuf = buffer.mapIdx (fun i c =>
      if (c < 32 ∨ 126 < c) ∧ ¬ ((c = 250 ∨ c = 10) ∧ i = cfg.RECORD_SIZE - 1)
      then cfg.FILL_VALUE else c) := by
    rw [pos_record_writebuf cfg buffer n hlen]
    congr 1
    funext i c
    exact pos_fix_eq cfg i c
  refine ⟨hw, ?_, ?_⟩
  · intro i hi
    rw [hw, List.getElem?_mapIdx, hi]
    simp
  · rw [pos_record_count]
    congr 2
    funext i
    by_cases h : invalid_pos cfg.RECORD_SIZE i (buffer.getD i 0) = true
    · rw [h, decide_eq_true ((invalid_pos_iff _ _ _).mp h)]
    · have h2 := fun hh => h ((invalid_pos_iff _ _ _).mpr hh)
      rw [Bool.not_eq_true] at h
      rw [h, decide_eq_false h2]

/-- Witness of C9: the record `A B 00 C D 00 E F FA` read at offset 0. -/
theorem positional_repair_witness :
    ([65, 66, 0, 67, 68, 0, 69, 70, 250] : List Nat).length =
      (⟨9, 32, 0, true, true, false, false⟩ : Config).RECORD_SIZE ∧
    (pos_record ⟨9, 32, 0, true, true, false, false⟩
        [65, 66, 0, 67, 68, 0, 69, 70, 250] 0).writebuf =
      ([65, 66, 0, 67, 68, 0, 69, 70, 250] : List Nat).mapIdx (fun i c =>
        if (c < 32 ∨ 126 < c) ∧ ¬ ((c = 250 ∨ c = 10) ∧ i = 9 - 1) then 32 else c) ∧
    process_file ⟨9, 32, 0, true, true, false, false⟩ is_number_spec none
        [65, 66, 0, 67, 68, 0, 69, 70, 250] =
      some ⟨[65, 66, 32, 67, 68, 32, 69, 70, 250], 2, 0⟩ :=
  ⟨rfl, (positional_repair ⟨9, 32, 0, true, true, false, false⟩
    [65, 66, 0, 67, 68, 0, 69, 70, 250] 0 rfl).1, by decide⟩

/-! ## Lemmas on the stream primitives -/

theorem fread_length (file : List Nat) (pos n : Nat) :
    (fread file pos n).length = min n (file.length - pos) := by
  simp [fread]

theorem fread_full (file : List Nat) (pos n : Nat) (h : pos + n ≤ file.length) :
    (fread file pos n).length = n := by
  rw [fread_length]; omega

theorem fread_short (file : List Nat) (pos n : Nat) (hn : 1 ≤ n)
    (h : file.length < pos + n) : (fread file pos n).length ≠ n := by
  rw [fread_length]; omega

theorem fread_getElem? (file : List Nat) (pos n j : Nat) :
    (fread file pos n)[j]? = if j < n then file[pos + j]? else none := by
  simp [fread, List.getElem?_take, List.getElem?_drop]

theorem fwrite_length (file : List Nat) (pos : Nat) (writebuf : List Nat)
    (h : pos + writebuf.length ≤ file.length) :
    (fwrite file pos writebuf).length = file.length := by
  simp [fwrite]; omega

theorem fwrite_getElem? (file : List Nat) (pos : Nat) (writebuf : List Nat) (j : Nat)
    (h : pos + writebuf.length ≤ file.length) :
    (fwrite file pos writebuf)[j]? =
      if pos ≤ j ∧ j < pos + writebuf.length then writebuf[j - pos]? else file[j]? := by
  unfold fwrite
  have hp : (List.take pos file).length = pos := by simp; omega
  by_cases h1 : j < pos
  · rw [List.append_assoc, List.getElem?_append_left (by omega), List.getElem?_take, if_pos h1,
      if_neg (by omega)]
  · rw [List.append_assoc, List.getElem?_append_right (by omega), hp]
    by_cases h2 : j < pos + writebuf.length
    · rw [List.getElem?_append_left (by omega), if_pos ⟨by omega, h2⟩]
    · rw [List.getElem?_append_right (by omega), List.getElem?_drop, if_neg (fun hh => h2 hh.2)]
      congr 1; omega

theorem fwrite_take (file : List Nat) (pos : Nat) (writebuf : List Nat)
    (h : pos ≤ file.length) :
    (fwrite file pos writebuf).take (pos + writebuf.length) = file.take pos ++ writebuf := by
  unfold fwrite
  have hp : (List.take pos file ++ writebuf).length = pos + writebuf.length := by simp; omega
  rw [List.take_left' hp]

theorem fwrite_drop (file : List Nat) (pos : Nat) (writebuf : List Nat)
    (h : pos ≤ file.length) :
    (fwrite file pos writebuf).drop (pos + writebuf.length) =
      file.drop (pos + writebuf.length) := by
  unfold fwrite
  have hp : (List.take pos file ++ writebuf).length = pos + writebuf.length := by simp; omega
  rw [List.drop_left' hp]

theorem fwrite_fread (file : List Nat) (pos n : Nat) (h : pos + n ≤ file.length) :
    fwrite file pos (fread file pos n) = file := by
  apply List.ext_getElem?
  intro j
  rw [fwrite_getElem? _ _ _ _ (by rw [fread_full _ _ _ h]; exact h), fread_full _ _ _ h,
    fread_getElem?]
  by_cases hj : pos ≤ j ∧ j < pos + n
  · rw [if_pos hj, if_pos (by omega)]; congr 1; omega
  · rw [if_neg hj]

/-! ## The whole-file loop, record by record -/

theorem scan_loop_eq (cfg : Config) (hRS : 1 ≤ cfg.RECORD_SIZE) :
    ∀ (k fuel : Nat) (st : ScanState), k < fuel →
      st.file_pos + k * cfg.RECORD_SIZE ≤ st.file.length →
      st.file.length < st.file_pos + (k + 1) * cfg.RECORD_SIZE →
      scan_loop cfg fuel st = some
        { file := st.file.take st.file_pos ++
            (scan_chunks cfg k (st.file.drop st.file_pos) st.invalid_count).1
          file_pos := st.file_pos + k * cfg.RECORD_SIZE
          invalid_count := (scan_chunks cfg k (st.file.drop st.file_pos) st.invalid_count).2 } := by
  intro k
  induction k with
  | zero =>
    intro fuel st hf h1 h2
    obtain ⟨f, rfl⟩ : ∃ f, fuel = f + 1 := ⟨fuel - 1, by omega⟩
    have hshort : (fread st.file st.file_pos cfg.RECORD_SIZE).length ≠ cfg.RECORD_SIZE :=
      fread_short _ _ _ hRS (by omega)
    simp [scan_loop, hshort, scan_chunks]
  | succ k ih =>
    intro fuel st hf h1 h2
    obtain ⟨f, rfl⟩ : ∃ f, fuel = f + 1 := ⟨fuel - 1, by omega⟩
    have hmul : (k + 1) * cfg.RECORD_SIZE = k * cfg.RECORD_SIZE + cfg.RECORD_SIZE :=
      Nat.succ_mul _ _
    have hmul2 : (k + 1 + 1) * cfg.RECORD_SIZE = (k + 1) * cfg.RECORD_SIZE + cfg.RECORD_SIZE :=
      Nat.succ_mul _ _
    have hin : st.file_pos + cfg.RECORD_SIZE ≤ st.file.length := by omega
    have hfull : (fread st.file st.file_pos cfg.RECORD_SIZE).length = cfg.RECORD_SIZE :=
      fread_full _ _ _ hin
    set buffer := fread st.file st.file_pos cfg.RECORD_SIZE with hbuf
    set r := scan_record cfg buffer st.invalid_count with hr
    set out := (if (cfg.UPDATE_FLAG && r.writebuf != buffer) = true then r.writebuf else buffer)
      with hout
    have houtlen : out.length = cfg.RECORD_SIZE := by
      rw [hout]
      split_ifs
      · exact scan_record_length cfg buffer _ hfull
      · exact hfull
    have hfile : (if (cfg.UPDATE_FLAG && r.writebuf != buffer) = true
        then fwrite st.file st.file_pos r.writebuf else st.file) =
        fwrite st.file st.file_pos out := by
      rw [hout]
      split_ifs
      · rfl
      · rw [hbuf, fwrite_fread _ _ _ hin]
    have hflen : (fwrite st.file st.file_pos out).length = st.file.length :=
      fwrite_length _ _ _ (by rw [houtlen]; exact hin)
    have hstep : scan_loop cfg (f + 1) st = scan_loop cfg f
        { file := fwrite st.file st.file_pos out
          file_pos := st.file_pos + cfg.RECORD_SIZE
          invalid_count := r.invalid_count } := by
      rw [scan_loop]
      simp only [← hbuf, ← hr, hfull, beq_self_eq_true, if_true, hfile]
    rw [hstep, ih f _ (by omega) (by simp only [hflen]; omega) (by simp only [hflen]; omega)]
    have htake : (fwrite st.file st.file_pos out).take (st.file_pos + cfg.RECORD_SIZE) =
        st.file.take st.file_pos ++ out := by
      rw [← houtlen]; exact fwrite_take _ _ _ (by omega)
    have hdrop : (fwrite st.file st.file_pos out).drop (st.file_pos + cfg.RECORD_SIZE) =
        (st.file.drop st.file_pos).drop cfg.RECORD_SIZE := by
      rw [List.drop_drop, ← houtlen]; exact fwrite_drop _ _ _ (by omega)
    simp only [htake, hdrop]
    have hch : scan_chunks cfg (k + 1) (st.file.drop st.file_pos) st.invalid_count =
        (out ++ (scan_chunks cfg k ((st.file.drop st.file_pos).drop cfg.RECORD_SIZE)
            r.invalid_count).1,
          (scan_chunks cfg k ((st.file.drop st.file_pos).drop cfg.RECORD_SIZE)
            r.invalid_count).2) := by
      rw [scan_chunks]
      rfl
    rw [hch]
    simp only [List.append_assoc, hmul]
    congr 2
    omega

theorem process_file_scan (cfg : Config) ( is_number : List Nat → Bool)
    (input : Option (List (List Nat))) (file : List Nat) (hRS : 1 ≤ cfg.RECORD_SIZE)
    (hm : (cfg.FULL_DETECTION_FLAG || cfg.ZERO_DETECTION_FLAG) = true) :
    process_file cfg is_number input file = some
      { file := (scan_chunks cfg (file.length / cfg.RECORD_SIZE) file 0).1
        invalid_count := (scan_chunks cfg (file.length / cfg.RECORD_SIZE) file 0).2
        ret_val := 0 } := by
  have h1 := Nat.div_mul_le_self file.length cfg.RECORD_SIZE
  have h2 : file.length < file.length / cfg.RECORD_SIZE * cfg.RECORD_SIZE + cfg.RECORD_SIZE :=
    Nat.lt_div_mul_add hRS
  have h3 := Nat.div_le_self file.length cfg.RECORD_SIZE
  have hmul : (file.length / cfg.RECORD_SIZE + 1) * cfg.RECORD_SIZE =
      file.length / cfg.RECORD_SIZE * cfg.RECORD_SIZE + cfg.RECORD_SIZE := Nat.succ_mul _ _
  unfold process_file
  rw [if_pos hm, scan_loop_eq cfg hRS (file.length / cfg.RECORD_SIZE) (file.length + 1)
    { file := file, file_pos := 0, invalid_count := 0 } (by omega) (by simp only []; omega)
    (by simp only []; omega)]
  simp

theorem scan_chunks_length (cfg : Config) :
    ∀ (k : Nat) (rest : List Nat) (n : Nat), k * cfg.RECORD_SIZE ≤ rest.length →
      (scan_chunks cfg k rest n).1.length = rest.length := by
  intro k
  induction k with
  | zero => intro rest n _; rfl
  | succ k ih =>
    intro rest n h
    have hmul : (k + 1) * cfg.RECORD_SIZE = k * cfg.RECORD_SIZE + cfg.RECORD_SIZE :=
      Nat.succ_mul _ _
    have hb : (rest.take cfg.RECORD_SIZE).length = cfg.RECORD_SIZE := by
      rw [List.length_take]; omega
    rw [scan_chunks]
    simp only [List.length_append]
    rw [ih _ _ (by rw [List.length_drop]; omega), List.length_drop]
    split_ifs
    · rw [scan_record_length cfg _ _ hb]; omega
    · rw [hb]; omega

theorem scan_chunks_drop (cfg : Config) :
    ∀ (k : Nat) (rest : List Nat) (n : Nat), k * cfg.RECORD_SIZE ≤ rest.length →
      (scan_chunks cfg k rest n).1.drop (k * cfg.RECORD_SIZE) =
        rest.drop (k * cfg.RECORD_SIZE) := by
  intro k
  induction k with
  | zero => intro rest n _; simp [scan_chunks]
  | succ k ih =>
    intro rest n h
    have hmul : (k + 1) * cfg.RECORD_SIZE = cfg.RECORD_SIZE + k * cfg.RECORD_SIZE := by
      rw [Nat.succ_mul, Nat.add_comm]
    have hb : (rest.take cfg.RECORD_SIZE).length = cfg.RECORD_SIZE := by
      rw [List.length_take]; omega
    rw [scan_chunks]
    simp only []
    have hout : ∀ out : List Nat, out.length = cfg.RECORD_SIZE → ∀ t : List Nat,
        (out ++ t).drop ((k + 1) * cfg.RECORD_SIZE) = t.drop (k * cfg.RECORD_SIZE) := by
      intro out ho t
      rw [hmul, ← List.drop_drop, List.drop_left' ho]
    rw [hout _ (by split_ifs
                   · exact scan_record_length cfg _ _ hb
                   · exact hb),
      ih _ _ (by rw [List.length_drop]; omega), List.drop_drop, ← hmul]

theorem scan_chunks_report (cfg : Config) (hu : cfg.UPDATE_FLAG = false) :
    ∀ (k : Nat) (rest : List Nat) (n : Nat), (scan_chunks cfg k rest n).1 = rest := by
  intro k
  induction k with
  | zero => intro rest n; rfl
  | succ k ih =>
    intro rest n
    rw [scan_chunks]
    simp only [hu, Bool.false_and, Bool.false_eq_true, if_false, ih, List.take_append_drop]

theorem scan_byte_update (cfg : Config) (u : Bool) :
    scan_byte { cfg with UPDATE_FLAG := u } = scan_byte cfg := by
  funext buffer st i
  rfl

theorem scan_record_update (cfg : Config) (u : Bool) (buffer : List Nat) (n : Nat) :
    scan_record { cfg with UPDATE_FLAG := u } buffer n = scan_record cfg buffer n := by
  unfold scan_record scan_bytes
  rw [scan_byte_update]
  rfl

theorem scan_chunks_count_update (cfg : Config) (u : Bool) :
    ∀ (k : Nat) (rest : List Nat) (n : Nat),
      (scan_chunks { cfg with UPDATE_FLAG := u } k rest n).2 = (scan_chunks cfg k rest n).2 := by
  intro k
  induction k with
  | zero => intro rest n; rfl
  | succ k ih =>
    intro rest n
    rw [scan_chunks, scan_chunks]
    simp only [scan_record_update]
    exact ih _ _

/-! ## Records that a second pass leaves alone -/

theorem scan_fix_of_not_hit (cfg : Config) (i c : Nat) (h : scan_hit cfg i c = false) :
    scan_fix cfg i c = c := by
  rw [scan_hit_eq] at h
  rw [scan_fix_eq]
  by_cases hc : c = 0
  · rw [if_pos hc] at h
    rw [if_pos hc, h, hc]; rfl
  · rw [if_neg hc] at h
    rw [if_neg hc, if_neg]
    intro hh
    rw [hh.1, decide_eq_true hh.2] at h
    exact absurd h (by decide)

theorem scan_null_le_hit (cfg : Config) (i c : Nat) (h : scan_hit cfg i c = false) :
    scan_null cfg i c = false := by
  rw [scan_hit_eq] at h
  rw [scan_null_eq]
  by_cases hc : c = 0
  · rw [if_pos hc] at h
    rw [h]; rfl
  · have hb : (c == 0) = false := beq_false_of_ne hc
    rw [hb]; simp

/-- A record in which no byte makes the loop of lines 447-481 count is left as it is. -/
theorem scan_record_fixed (cfg : Config) (buffer : List Nat) (m : Nat)
    (hlen : buffer.length = cfg.RECORD_SIZE)
    (h : ∀ (i c : Nat), buffer[i]? = some c → scan_hit cfg i c = false) :
    (scan_record cfg buffer m).writebuf = buffer ∧
      (scan_record cfg buffer m).invalid_count = m := by
  have hget : ∀ i, i < cfg.RECORD_SIZE → buffer[i]? = some (buffer.getD i 0) := by
    intro i hi
    have hi2 : i < buffer.length := by omega
    rw [List.getElem?_eq_getElem hi2, getD_of_getElem? _ _ _ (List.getElem?_eq_getElem hi2)]
  have hnull : (scan_bytes cfg buffer m).null_count = 0 := by
    rw [scan_bytes_null, List.countP_eq_zero]
    intro i hi
    rw [List.mem_range] at hi
    rw [scan_null_le_hit cfg i _ (h i _ (hget i hi))]
    exact Bool.false_ne_true
  have hdel : ¬ delete_record cfg (scan_bytes cfg buffer m).null_count = true := by
    rw [hnull]; simp [delete_record]
  constructor
  · rw [scan_record_writebuf cfg buffer m hlen, if_neg hdel]
    apply List.ext_getElem?
    intro j
    rw [List.getElem?_mapIdx]
    cases hj : buffer[j]? with
    | none => rfl
    | some c => rw [Option.map_some', scan_fix_of_not_hit cfg j c (h j c hj)]
  · rw [scan_record_count]
    have : (List.range cfg.RECORD_SIZE).countP
        (fun i => scan_hit cfg i (buffer.getD i 0)) = 0 := by
      rw [List.countP_eq_zero]
      intro i hi
      rw [List.mem_range] at hi
      rw [h i _ (hget i hi)]
      exact Bool.false_ne_true
    rw [this]; rfl

/-- With at most one of the two whole-file policies on and a printable fill value, a byte that
the loop has repaired is not counted again. -/
theorem scan_hit_fix (cfg : Config) (i c : Nat)
    (hmode : ¬ (cfg.FULL_DETECTION_FLAG = true ∧ cfg.ZERO_DETECTION_FLAG = true))
    (hfill : VALID_START ≤ cfg.FILL_VALUE ∧ cfg.FILL_VALUE ≤ VALID_END) :
    scan_hit cfg i (scan_fix cfg i c) = false := by
  have hf1 : 32 ≤ cfg.FILL_VALUE := hfill.1
  have hf2 : cfg.FILL_VALUE ≤ 126 := hfill.2
  rw [scan_fix_eq]
  by_cases hc : c = 0
  · rw [if_pos hc]
    cases hz : cfg.ZERO_DETECTION_FLAG
    · rw [scan_hit_eq, hz]; simp
    · have hf : cfg.FULL_DETECTION_FLAG = false := by
        cases hf : cfg.FULL_DETECTION_FLAG
        · rfl
        · exact absurd ⟨hf, hz⟩ hmode
      rw [scan_hit_eq, hf]; simp
  · rw [if_neg hc]
    by_cases hh : cfg.FULL_DETECTION_FLAG = true ∧ (c < 32 ∨ 126 < c) ∧
        ¬ ((c = 250 ∨ c = 10) ∧ i = cfg.RECORD_SIZE - 1)
    · rw [if_pos hh, scan_hit_eq, if_neg (by omega)]
      have : ¬ ((cfg.FILL_VALUE < 32 ∨ 126 < cfg.FILL_VALUE) ∧
          ¬ ((cfg.FILL_VALUE = 250 ∨ cfg.FILL_VALUE = 10) ∧ i = cfg.RECORD_SIZE - 1)) := by
        intro h; omega
      rw [decide_eq_false this]; simp
    · rw [if_neg hh, scan_hit_eq, if_neg hc]
      cases hf : cfg.FULL_DETECTION_FLAG
      · rfl
      · rw [hf] at hh
        have : ¬ ((c < 32 ∨ 126 < c) ∧ ¬ ((c = 250 ∨ c = 10) ∧ i = cfg.RECORD_SIZE - 1)) :=
          fun h => hh ⟨rfl, h⟩
        rw [decide_eq_false this]; rfl

/-- What a pass with one whole-file policy leaves of a record is left alone by the next. -/
theorem scan_record_settled (cfg : Config) (buffer : List Nat) (n m : Nat)
    (hlen : buffer.length = cfg.RECORD_SIZE)
    (hmode : ¬ (cfg.FULL_DETECTION_FLAG = true ∧ cfg.ZERO_DETECTION_FLAG = true))
    (hfill : VALID_START ≤ cfg.FILL_VALUE ∧ cfg.FILL_VALUE ≤ VALID_END) :
    (scan_record cfg (scan_record cfg buffer n).writebuf m).writebuf =
        (scan_record cfg buffer n).writebuf ∧
      (scan_record cfg (scan_record cfg buffer n).writebuf m).invalid_count = m := by
  apply scan_record_fixed cfg _ m (scan_record_length cfg buffer n hlen)
  intro i c hi
  rw [scan_record_writebuf cfg buffer n hlen] at hi
  by_cases hd : delete_record cfg (scan_bytes cfg buffer n).null_count = true
  · rw [if_pos hd, List.getElem?_replicate] at hi
    have hz : cfg.ZERO_DETECTION_FLAG = true := by
      simp only [delete_record, Bool.and_eq_true] at hd
      exact hd.1
    have hf : cfg.FULL_DETECTION_FLAG = false := by
      cases hf : cfg.FULL_DETECTION_FLAG
      · rfl
      · exact absurd ⟨hf, hz⟩ hmode
    split_ifs at hi
    simp only [Option.some.injEq] at hi
    subst hi
    rw [scan_hit_eq, hf]
    simp [NULL_FILL_VALUE]
  · rw [if_neg hd, List.getElem?_mapIdx] at hi
    cases hb : buffer[i]? with
    | none => rw [hb] at hi; exact absurd hi (by simp)
    | some b =>
      rw [hb, Option.map_some', Option.some.injEq] at hi
      subst hi
      exact scan_hit_fix cfg i b hmode hfill

theorem scan_chunks_idem (cfg : Config) (hu : cfg.UPDATE_FLAG = true)
    (hmode : ¬ (cfg.FULL_DETECTION_FLAG = true ∧ cfg.ZERO_DETECTION_FLAG = true))
    (hfill : VALID_START ≤ cfg.FILL_VALUE ∧ cfg.FILL_VALUE ≤ VALID_END) :
    ∀ (k : Nat) (rest : List Nat) (n m : Nat), k * cfg.RECORD_SIZE ≤ rest.length →
      scan_chunks cfg k (scan_chunks cfg k rest n).1 m = ((scan_chunks cfg k rest n).1, m) := by
  intro k
  induction k with
  | zero => intro rest n m _; rfl
  | succ k ih =>
    intro rest n m h
    have hmul : (k + 1) * cfg.RECORD_SIZE = k * cfg.RECORD_SIZE + cfg.RECORD_SIZE :=
      Nat.succ_mul _ _
    have hb : (rest.take cfg.RECORD_SIZE).length = cfg.RECORD_SIZE := by
      rw [List.length_take]; omega
    have hrest : k * cfg.RECORD_SIZE ≤ (rest.drop cfg.RECORD_SIZE).length := by
      rw [List.length_drop]; omega
    rw [scan_chunks.eq_def cfg (k + 1) rest n]
    simp only []
    set buffer := rest.take cfg.RECORD_SIZE with hbuf
    set r := scan_record cfg buffer n with hr
    set out := (if (cfg.UPDATE_FLAG && r.writebuf != buffer) = true then r.writebuf else buffer)
      with hout
    have houtlen : out.length = cfg.RECORD_SIZE := by
      rw [hout]
      split_ifs
      · exact scan_record_length cfg buffer _ hb
      · exact hb
    have hout2 : out = r.writebuf := by
      by_cases hw : r.writebuf = buffer
      · rw [hout]; split_ifs
        · rfl
        · exact hw.symm
      · rw [hout, if_pos]
        simp [hu, hw]
    have hfixed : (scan_record cfg out m).writebuf = out ∧
        (scan_record cfg out m).invalid_count = m := by
      rw [hout2]
      exact scan_record_settled cfg buffer n m hb hmode hfill
    rw [scan_chunks.eq_def cfg (k + 1) _ m]
    simp only [List.take_left' houtlen, List.drop_left' houtlen, hfixed.1, hfixed.2,
      bne_self_eq_false, Bool.and_false, Bool.false_eq_true, if_false,
      ih _ r.invalid_count m hrest]

/-! ## One positional record check -/

theorem pos_record_nil (cfg : Config) (n : Nat) (h : cfg.RECORD_SIZE = 0) :
    pos_record cfg [] n = { writebuf := [], invalid_count := n } := by
  simp [pos_record, h]

theorem check_record_short (cfg : Config) (st : PosState)
    (h : read_in_full cfg st.file.length st.current_pos = false) :
    check_record cfg st = st := by
  unfold check_record
  by_cases hs : fseek_ok st.current_pos = true
  · rw [if_pos hs]
    have hlen : ¬ st.current_pos + cfg.RECORD_SIZE ≤ st.file.length := by
      simpa [read_in_full, hs] using h
    by_cases hb : (fread st.file st.current_pos cfg.RECORD_SIZE).length = cfg.RECORD_SIZE
    · have h0 : cfg.RECORD_SIZE = 0 := by
        rw [fread_length] at hb; omega
      have hnil : fread st.file st.current_pos cfg.RECORD_SIZE = [] := by
        simp [fread, h0]
      rw [hnil]
      simp only [pos_record_nil cfg _ h0, h0]
      simp
    · simp [hb]
  · rw [if_neg hs]

theorem check_record_full (cfg : Config) (st : PosState)
    (h : read_in_full cfg st.file.length st.current_pos = true) :
    check_record cfg st =
      { st with
        file := if cfg.UPDATE_FLAG = true then
            fwrite st.file st.current_pos
              ((fread st.file st.current_pos cfg.RECORD_SIZE).mapIdx (pos_fix cfg))
          else st.file
        invalid_count := st.invalid_count + (List.range cfg.RECORD_SIZE).countP (fun i =>
          invalid_pos cfg.RECORD_SIZE i
            ((fread st.file st.current_pos cfg.RECORD_SIZE).getD i 0)) } := by
  have hs : fseek_ok st.current_pos = true := by
    simp only [read_in_full, Bool.and_eq_true] at h; exact h.1
  have hin : st.current_pos + cfg.RECORD_SIZE ≤ st.file.length := by
    simp only [read_in_full, Bool.and_eq_true, decide_eq_true_eq] at h; exact h.2
  have hb : (fread st.file st.current_pos cfg.RECORD_SIZE).length = cfg.RECORD_SIZE :=
    fread_full _ _ _ hin
  unfold check_record
  rw [if_pos hs]
  simp only [hb, bne_self_eq_false, Bool.false_eq_true, if_false]
  rw [pos_record_writebuf cfg _ _ hb, pos_record_count]
  congr 1
  by_cases hu : cfg.UPDATE_FLAG = true
  · rw [if_pos hu]
    by_cases hw : (fread st.file st.current_pos cfg.RECORD_SIZE).mapIdx (pos_fix cfg) =
        fread st.file st.current_pos cfg.RECORD_SIZE
    · rw [if_neg (by simp [hw]), hw, fwrite_fread _ _ _ hin]
    · rw [if_pos (by simp [hu, hw])]
  · rw [if_neg hu, if_neg (by simp [hu])]

theorem check_record_length (cfg : Config) (st : PosState) :
    (check_record cfg st).file.length = st.file.length := by
  cases h : read_in_full cfg st.file.length st.current_pos
  · rw [check_record_short cfg st h]
  · rw [check_record_full cfg st h]
    have hin : st.current_pos + cfg.RECORD_SIZE ≤ st.file.length := by
      simp only [read_in_full, Bool.and_eq_true, decide_eq_true_eq] at h; exact h.2
    simp only []
    split_ifs
    · rw [fwrite_length]
      rw [List.length_mapIdx, fread_full _ _ _ hin]; exact hin
    · rfl

theorem check_record_report (cfg : Config) (st : PosState) (hu : cfg.UPDATE_FLAG = false) :
    (check_record cfg st).file = st.file := by
  cases h : read_in_full cfg st.file.length st.current_pos
  · rw [check_record_short cfg st h]
  · rw [check_record_full cfg st h]
    simp [hu]

/-- The file after one record check, byte by byte. -/
theorem check_record_getElem? (cfg : Config) (st : PosState) (j : Nat) :
    (check_record cfg st).file[j]? =
      if cfg.UPDATE_FLAG = true ∧ read_in_full cfg st.file.length st.current_pos = true ∧
          st.current_pos ≤ j ∧ j < st.current_pos + cfg.RECORD_SIZE
      then (st.file[j]?).map (pos_fix cfg (j - st.current_pos))
      else st.file[j]? := by
  cases h : read_in_full cfg st.file.length st.current_pos
  · rw [check_record_short cfg st h]
    simp
  · rw [check_record_full cfg st h]
    have hin : st.current_pos + cfg.RECORD_SIZE ≤ st.file.length := by
      simp only [read_in_full, Bool.and_eq_true, decide_eq_true_eq] at h; exact h.2
    have hb : (fread st.file st.current_pos cfg.RECORD_SIZE).length = cfg.RECORD_SIZE :=
      fread_full _ _ _ hin
    simp only []
    by_cases hu : cfg.UPDATE_FLAG = true
    · rw [if_pos hu, fwrite_getElem? _ _ _ _ (by rw [List.length_mapIdx, hb]; exact hin),
        List.length_mapIdx, hb]
      by_cases hj : st.current_pos ≤ j ∧ j < st.current_pos + cfg.RECORD_SIZE
      · rw [if_pos hj, if_pos ⟨hu, by first | rfl | trivial, hj⟩, List.getElem?_mapIdx, fread_getElem?,
          if_pos (by omega)]
        congr 2; omega
      · rw [if_neg hj, if_neg (fun hh => hj hh.2.2)]
    · rw [if_neg hu, if_neg (fun hh => hu hh.1)]

theorem check_record_count (cfg : Config) (st : PosState) :
    (check_record cfg st).invalid_count =
      st.invalid_count + if read_in_full cfg st.file.length st.current_pos = true then
        (List.range cfg.RECORD_SIZE).countP (fun i => invalid_pos cfg.RECORD_SIZE i
          ((fread st.file st.current_pos cfg.RECORD_SIZE).getD i 0))
      else 0 := by
  cases h : read_in_full cfg st.file.length st.current_pos
  · rw [check_record_short cfg st h]; simp
  · rw [check_record_full cfg st h]; simp

theorem check_record_ret (cfg : Config) (st : PosState) :
    (check_record cfg st).ret_val = st.ret_val ∧
      (check_record cfg st).current_pos = st.current_pos := by
  cases h : read_in_full cfg st.file.length st.current_pos
  · rw [check_record_short cfg st h]; exact ⟨rfl, rfl⟩
  · rw [check_record_full cfg st h]; exact ⟨rfl, rfl⟩

/-! ## The positional branch as a run over its offsets -/

theorem check_record_congr (cfg : Config) (st st' : PosState) (hf : st.file = st'.file)
    (hp : st.current_pos = st'.current_pos) (hn : st.invalid_count = st'.invalid_count) :
    (check_record cfg st).file = (check_record cfg st').file ∧
      (check_record cfg st).invalid_count = (check_record cfg st').invalid_count := by
  obtain ⟨f, p, n, r⟩ := st
  obtain ⟨f', p', n', r'⟩ := st'
  simp only at hf hp hn
  subst hf hp hn
  unfold check_record
  simp only []
  split_ifs <;> exact ⟨rfl, rfl⟩

theorem list_line_eq (cfg : Config) ( is_number : List Nat → Bool) (st : PosState)
    (l : List Nat) :
    (list_line cfg is_number st l).file = (check_record cfg
        { file := st.file
          current_pos := if is_number l = true then to_size_t (strtoll l) else st.current_pos
          invalid_count := st.invalid_count, ret_val := 0 }).file ∧
    (list_line cfg is_number st l).invalid_count = (check_record cfg
        { file := st.file
          current_pos := if is_number l = true then to_size_t (strtoll l) else st.current_pos
          invalid_count := st.invalid_count, ret_val := 0 }).invalid_count ∧
    (list_line cfg is_number st l).current_pos =
      (if is_number l = true then to_size_t (strtoll l) else st.current_pos) ∧
    (list_line cfg is_number st l).ret_val = if is_number l = true then st.ret_val else 1 := by
  cases hl : is_number l
  · have hline : list_line cfg is_number st l = check_record cfg { st with ret_val := 1 } := by
      simp [list_line, hl]
    have hc := check_record_congr cfg { st with ret_val := 1 }
      { file := st.file, current_pos := st.current_pos, invalid_count := st.invalid_count,
        ret_val := 0 } rfl rfl rfl
    have hr := check_record_ret cfg { st with ret_val := 1 }
    rw [hline]
    exact ⟨hc.1, hc.2, hr.2, hr.1⟩
  · have hline : list_line cfg is_number st l =
        check_record cfg { st with current_pos := to_size_t (strtoll l) } := by
      simp [list_line, hl]
    have hc := check_record_congr cfg { st with current_pos := to_size_t (strtoll l) }
      { file := st.file, current_pos := to_size_t (strtoll l),
        invalid_count := st.invalid_count, ret_val := 0 } rfl rfl rfl
    have hr := check_record_ret cfg { st with current_pos := to_size_t (strtoll l) }
    rw [hline]
    exact ⟨hc.1, hc.2, hr.2, hr.1⟩

theorem list_loop_eq (cfg : Config) ( is_number : List Nat → Bool) :
    ∀ (lines : List (List Nat)) (st : PosState),
      (list_loop cfg is_number lines st).file =
        (check_all cfg (list_offsets is_number lines st.current_pos)
          (st.file, st.invalid_count)).1 ∧
      (list_loop cfg is_number lines st).invalid_count =
        (check_all cfg (list_offsets is_number lines st.current_pos)
          (st.file, st.invalid_count)).2 ∧
      (list_loop cfg is_number lines st).ret_val =
        if lines.all is_number = true then st.ret_val else 1 := by
  intro lines
  induction lines with
  | nil => intro st; simp [list_loop, list_offsets, check_all]
  | cons l rest ih =>
    intro st
    rw [list_loop, list_offsets, check_all]
    simp only []
    obtain ⟨h1, h2, h3⟩ := ih (list_line cfg is_number st l)
    obtain ⟨e1, e2, e3, e4⟩ := list_line_eq cfg is_number st l
    rw [e1, e2, e3] at h1 h2
    rw [e4] at h3
    refine ⟨h1, h2, ?_⟩
    rw [h3]
    cases hl : is_number l <;> simp [hl]

/-- The return value of the positional branch: 1 when the list has a line that `is_number`
rejects, 0 otherwise. -/
theorem process_file_positional (cfg : Config) ( is_number : List Nat → Bool)
    (input : Option (List (List Nat))) (file : List Nat)
    (hm : (cfg.FULL_DETECTION_FLAG || cfg.ZERO_DETECTION_FLAG) = false) :
    process_file cfg is_number input file = some
      { file := (check_all cfg (offsets cfg is_number input) (file, 0)).1
        invalid_count := (check_all cfg (offsets cfg is_number input) (file, 0)).2
        ret_val := match input with
          | none => 0
          | some lines => if lines.all is_number = true then 0 else 1 } := by
  unfold process_file
  rw [hm]
  simp only [Bool.false_eq_true, if_false, Option.some.injEq]
  unfold positional offsets
  cases hp : cfg.POSITION_SET
  · cases input with
    | none => simp [check_all]
    | some lines =>
      obtain ⟨h1, h2, h3⟩ := list_loop_eq cfg is_number lines
        { file := file, current_pos := 0, invalid_count := 0, ret_val := 0 }
      simp [h1, h2, h3]
  · have hr := check_record_ret cfg
      { file := file, current_pos := cfg.RECORD_POSITION, invalid_count := 0, ret_val := 0 }
    cases input with
    | none => simp [check_all, hr.1]
    | some lines =>
      obtain ⟨h1, h2, h3⟩ := list_loop_eq cfg is_number lines (check_record cfg
        { file := file, current_pos := cfg.RECORD_POSITION, invalid_count := 0, ret_val := 0 })
      rw [hr.2] at h1 h2
      rw [hr.1] at h3
      simp [h1, h2, h3, check_all]

theorem check_all_length (cfg : Config) :
    ∀ (os : List Nat) (fc : List Nat × Nat), (check_all cfg os fc).1.length = fc.1.length := by
  intro os
  induction os with
  | nil => intro fc; rfl
  | cons p t ih =>
    intro fc
    rw [check_all, ih, check_record_length]

theorem check_all_report (cfg : Config) (hu : cfg.UPDATE_FLAG = false) :
    ∀ (os : List Nat) (fc : List Nat × Nat), (check_all cfg os fc).1 = fc.1 := by
  intro os
  induction os with
  | nil => intro fc; rfl
  | cons p t ih =>
    intro fc
    rw [check_all, ih, check_record_report cfg _ hu]

/-- A byte outside the records read in full is not changed by the positional run. -/
theorem check_all_frame (cfg : Config) (j : Nat) :
    ∀ (os : List Nat) (fc : List Nat × Nat),
      (∀ p ∈ os, read_in_full cfg fc.1.length p = true → ¬ (p ≤ j ∧ j < p + cfg.RECORD_SIZE)) →
      (check_all cfg os fc).1[j]? = fc.1[j]? := by
  intro os
  induction os with
  | nil => intro fc _; rfl
  | cons p t ih =>
    intro fc h
    rw [check_all, ih, check_record_getElem?]
    · rw [if_neg]
      intro hh
      exact h p (List.mem_cons_self _ _) hh.2.1 hh.2.2
    · intro q hq hfull
      rw [check_record_length] at hfull
      exact h q (List.mem_cons_of_mem _ hq) hfull

/-! ## Positional records that a second pass leaves alone -/

theorem invalid_pos_fill (cfg : Config) (j : Nat)
    (hfill : VALID_START ≤ cfg.FILL_VALUE ∧ cfg.FILL_VALUE ≤ VALID_END) :
    invalid_pos cfg.RECORD_SIZE j cfg.FILL_VALUE = false := by
  have hf1 : 32 ≤ cfg.FILL_VALUE := hfill.1
  have hf2 : cfg.FILL_VALUE ≤ 126 := hfill.2
  rw [← Bool.not_eq_true, invalid_pos_iff]
  intro h; omega

theorem pos_fix_valid (cfg : Config) (j c : Nat)
    (hfill : VALID_START ≤ cfg.FILL_VALUE ∧ cfg.FILL_VALUE ≤ VALID_END) :
    invalid_pos cfg.RECORD_SIZE j (pos_fix cfg j c) = false := by
  unfold pos_fix
  cases h : invalid_pos cfg.RECORD_SIZE j c
  · simpa using h
  · simpa using invalid_pos_fill cfg j hfill

theorem tidy_after (cfg : Config) (st : PosState) (hu : cfg.UPDATE_FLAG = true)
    (hfill : VALID_START ≤ cfg.FILL_VALUE ∧ cfg.FILL_VALUE ≤ VALID_END) :
    tidy cfg (check_record cfg st).file st.current_pos := by
  intro hfull j c hj hget
  rw [check_record_length] at hfull
  rw [check_record_getElem?, if_pos ⟨hu, hfull, by omega, by omega⟩] at hget
  cases hb : st.file[st.current_pos + j]? with
  | none => rw [hb] at hget; exact absurd hget (by simp)
  | some b =>
    rw [hb, Option.map_some', Option.some.injEq] at hget
    have hidx : st.current_pos + j - st.current_pos = j := by omega
    rw [hidx] at hget
    rw [← hget]
    exact pos_fix_valid cfg j b hfill

theorem tidy_preserved (cfg : Config) (st : PosState) (q : Nat)
    (hfill : VALID_START ≤ cfg.FILL_VALUE ∧ cfg.FILL_VALUE ≤ VALID_END)
    (hq : tidy cfg st.file q) : tidy cfg (check_record cfg st).file q := by
  intro hfull j c hj hget
  rw [check_record_length] at hfull
  rw [check_record_getElem?] at hget
  split_ifs at hget with hc
  · cases hb : st.file[q + j]? with
    | none => rw [hb] at hget; exact absurd hget (by simp)
    | some b =>
      rw [hb, Option.map_some', Option.some.injEq] at hget
      rw [← hget]
      unfold pos_fix
      split_ifs
      · exact invalid_pos_fill cfg j hfill
      · exact hq hfull j b hj hb
  · exact hq hfull j c hj hget

theorem tidy_fixed (cfg : Config) (st : PosState) (hq : tidy cfg st.file st.current_pos) :
    check_record cfg st = st := by
  cases h : read_in_full cfg st.file.length st.current_pos
  · exact check_record_short cfg st h
  · have hin : st.current_pos + cfg.RECORD_SIZE ≤ st.file.length := by
      simp only [read_in_full, Bool.and_eq_true, decide_eq_true_eq] at h; exact h.2
    have hvalid : ∀ j, j < cfg.RECORD_SIZE → ∀ c,
        (fread st.file st.current_pos cfg.RECORD_SIZE)[j]? = some c →
        invalid_pos cfg.RECORD_SIZE j c = false := by
      intro j hj c hc
      rw [fread_getElem?, if_pos hj] at hc
      exact hq h j c hj hc
    have hb : (fread st.file st.current_pos cfg.RECORD_SIZE).length = cfg.RECORD_SIZE :=
      fread_full _ _ _ hin
    have hmap : (fread st.file st.current_pos cfg.RECORD_SIZE).mapIdx (pos_fix cfg) =
        fread st.file st.current_pos cfg.RECORD_SIZE := by
      apply List.ext_getElem?
      intro j
      rw [List.getElem?_mapIdx]
      cases hc : (fread st.file st.current_pos cfg.RECORD_SIZE)[j]? with
      | none => rfl
      | some c =>
        have hj : j < cfg.RECORD_SIZE := by
          by_contra hn
          rw [List.getElem?_eq_none (by omega)] at hc
          exact absurd hc (by simp)
        rw [Option.map_some', pos_fix, hvalid j hj c hc]
        simp
    have hcount : (List.range cfg.RECORD_SIZE).countP (fun i =>
        invalid_pos cfg.RECORD_SIZE i
          ((fread st.file st.current_pos cfg.RECORD_SIZE).getD i 0)) = 0 := by
      rw [List.countP_eq_zero]
      intro i hi
      rw [List.mem_range] at hi
      have hi2 : i < (fread st.file st.current_pos cfg.RECORD_SIZE).length := by omega
      have hg := List.getElem?_eq_getElem hi2
      rw [getD_of_getElem? _ _ _ hg, hvalid i hi _ hg]
      exact Bool.false_ne_true
    rw [check_record_full cfg st h, hmap, hcount, fwrite_fread _ _ _ hin]
    simp

theorem check_all_tidy_preserved (cfg : Config) (q : Nat)
    (hfill : VALID_START ≤ cfg.FILL_VALUE ∧ cfg.FILL_VALUE ≤ VALID_END) :
    ∀ (os : List Nat) (fc : List Nat × Nat), tidy cfg fc.1 q →
      tidy cfg (check_all cfg os fc).1 q := by
  intro os
  induction os with
  | nil => intro fc h; exact h
  | cons p t ih =>
    intro fc h
    rw [check_all]
    exact ih _ (tidy_preserved cfg _ q hfill h)

theorem check_all_tidy (cfg : Config) (hu : cfg.UPDATE_FLAG = true)
    (hfill : VALID_START ≤ cfg.FILL_VALUE ∧ cfg.FILL_VALUE ≤ VALID_END) :
    ∀ (os : List Nat) (fc : List Nat × Nat), ∀ q ∈ os, tidy cfg (check_all cfg os fc).1 q := by
  intro os
  induction os with
  | nil => intro fc q hq; exact absurd hq (List.not_mem_nil q)
  | cons p t ih =>
    intro fc q hq
    rw [check_all]
    rcases List.mem_cons.mp hq with h | h
    · subst h
      exact check_all_tidy_preserved cfg q hfill t _
        (tidy_after cfg { file := fc.1, current_pos := q, invalid_count := fc.2, ret_val := 0 }
          hu hfill)
    · exact ih _ q h

theorem check_all_fixed (cfg : Config) :
    ∀ (os : List Nat) (fc : List Nat × Nat), (∀ q ∈ os, tidy cfg fc.1 q) →
      check_all cfg os fc = fc := by
  intro os
  induction os with
  | nil => intro fc _; rfl
  | cons p t ih =>
    intro fc h
    rw [check_all, tidy_fixed cfg
      { file := fc.1, current_pos := p, invalid_count := fc.2, ret_val := 0 }
      (h p (List.mem_cons_self _ _))]
    exact ih fc (fun q hq => h q (List.mem_cons_of_mem _ hq))

/-! ## Counting with and without writing -/

theorem check_all_filter (cfg : Config) :
    ∀ (os : List Nat) (fc : List Nat × Nat),
      check_all cfg (os.filter (read_in_full cfg fc.1.length)) fc = check_all cfg os fc := by
  intro os
  induction os with
  | nil => intro fc; rfl
  | cons p t ih =>
    intro fc
    cases h : read_in_full cfg fc.1.length p
    · rw [List.filter_cons_of_neg (by simp [h]), check_all, check_record_short cfg _ h]
      exact ih fc
    · rw [List.filter_cons_of_pos h, check_all, check_all]
      have hlen := check_record_length cfg
        { file := fc.1, current_pos := p, invalid_count := fc.2, ret_val := 0 }
      simp only [] at hlen
      rw [← hlen]
      exact ih (_, _)

theorem fread_congr (f g : List Nat) (q n : Nat)
    (h : ∀ j, j < n → f[q + j]? = g[q + j]?) : fread f q n = fread g q n := by
  apply List.ext_getElem?
  intro j
  rw [fread_getElem?, fread_getElem?]
  by_cases hj : j < n
  · rw [if_pos hj, if_pos hj, h j hj]
  · rw [if_neg hj, if_neg hj]

/-- When the records read do not overlap, the run that writes counts what the run that only
reports counts. -/
theorem check_all_count_disjoint (cfg : Config) :
    ∀ (os : List Nat) (fU fR : List Nat) (n : Nat), fU.length = fR.length →
      (∀ p ∈ os, read_in_full cfg fR.length p = true) →
      (∀ p ∈ os, fread fU p cfg.RECORD_SIZE = fread fR p cfg.RECORD_SIZE) →
      os.Pairwise (fun p q => p + cfg.RECORD_SIZE ≤ q ∨ q + cfg.RECORD_SIZE ≤ p) →
      (check_all { cfg with UPDATE_FLAG := true } os (fU, n)).2 =
        (check_all { cfg with UPDATE_FLAG := false } os (fR, n)).2 := by
  intro os
  induction os with
  | nil => intro fU fR n _ _ _ _; rfl
  | cons p t ih =>
    intro fU fR n hlen hfull hsame hpw
    rw [List.pairwise_cons] at hpw
    rw [check_all, check_all]
    have hcount : (check_record { cfg with UPDATE_FLAG := true }
          { file := fU, current_pos := p, invalid_count := n, ret_val := 0 }).invalid_count =
        (check_record { cfg with UPDATE_FLAG := false }
          { file := fR, current_pos := p, invalid_count := n, ret_val := 0 }).invalid_count := by
      rw [check_record_count, check_record_count]
      simp only [read_in_full, hlen]
      rw [hsame p (List.mem_cons_self _ _)]
    have hrep : (check_record { cfg with UPDATE_FLAG := false }
          { file := fR, current_pos := p, invalid_count := n, ret_val := 0 }).file = fR :=
      check_record_report _ _ rfl
    have hlenU : (check_record { cfg with UPDATE_FLAG := true }
          { file := fU, current_pos := p, invalid_count := n, ret_val := 0 }).file.length =
        fU.length := check_record_length _ _
    simp only [hcount, hrep]
    apply ih _ fR _ (by rw [hlenU, hlen]) (fun q hq => hfull q (List.mem_cons_of_mem _ hq)) _
      hpw.2
    intro q hq
    rw [← hsame q (List.mem_cons_of_mem _ hq)]
    apply fread_congr
    intro j hj
    rw [check_record_getElem?, if_neg]
    intro hh
    have hd := hpw.1 q hq
    simp only [] at hh
    omega

theorem scan_loop_report (cfg : Config) (hu : cfg.UPDATE_FLAG = false) :
    ∀ (fuel : Nat) (st st' : ScanState), scan_loop cfg fuel st = some st' →
      st'.file = st.file := by
  intro fuel
  induction fuel with
  | zero => intro st st' h; simp [scan_loop] at h
  | succ f ih =>
    intro st st' h
    rw [scan_loop] at h
    simp only [hu, Bool.false_and, Bool.false_eq_true, if_false] at h
    split_ifs at h with hb
    · exact ih ⟨st.file, st.file_pos + cfg.RECORD_SIZE,
        (scan_record cfg (fread st.file st.file_pos cfg.RECORD_SIZE)
          st.invalid_count).invalid_count⟩ st' h
    · simp only [Option.some.injEq] at h
      rw [h]

/-! ## Claims on a whole run -/

/-- C3. Report-only mode never writes: with `UPDATE_FLAG` 0 the data file that `process_file`
leaves is the data file it found, for every record size, fill value, policy and offset list;
for a record size of at least 1 the call returns. -/
theorem report_only_never_writes (cfg : Config) ( is_number : List Nat → Bool)
    (input : Option (List (List Nat))) (file : List Nat) (hu : cfg.UPDATE_FLAG = false) :
    (∀ out, process_file cfg is_number input file = some out → out.file = file) ∧
    (1 ≤ cfg.RECORD_SIZE →
      ∃ out, process_file cfg is_number input file = some out ∧ out.file = file) := by
  have hpart : ∀ out, process_file cfg is_number input file = some out → out.file = file := by
    intro out h
    cases hm : (cfg.FULL_DETECTION_FLAG || cfg.ZERO_DETECTION_FLAG)
    · rw [process_file_positional cfg is_number input file hm, Option.some.injEq] at h
      rw [← h]
      exact check_all_report cfg hu _ _
    · unfold process_file at h
      rw [if_pos hm, Option.map_eq_some'] at h
      obtain ⟨st', h1, h2⟩ := h
      rw [← h2]
      exact scan_loop_report cfg hu _ _ _ h1
  refine ⟨hpart, ?_⟩
  intro hRS
  cases hm : (cfg.FULL_DETECTION_FLAG || cfg.ZERO_DETECTION_FLAG)
  · exact ⟨_, process_file_positional cfg is_number input file hm,
      hpart _ (process_file_positional cfg is_number input file hm)⟩
  · exact ⟨_, process_file_scan cfg is_number input file hRS hm,
      hpart _ (process_file_scan cfg is_number input file hRS hm)⟩

/-- Witness of C3: a report-only zero-detection run on a record that would be deleted. -/
theorem report_only_never_writes_witness :
    (⟨12, 32, 0, false, false, false, true⟩ : Config).UPDATE_FLAG = false ∧
    1 ≤ (⟨12, 32, 0, false, false, false, true⟩ : Config).RECORD_SIZE ∧
    ∃ out, process_file ⟨12, 32, 0, false, false, false, true⟩ is_number_spec none
        [0, 0, 0, 0, 0, 0, 0, 0, 0, 0, 0, 250] = some out ∧
      out.file = [0, 0, 0, 0, 0, 0, 0, 0, 0, 0, 0, 250] :=
  ⟨rfl, by decide, (report_only_never_writes ⟨12, 32, 0, false, false, false, true⟩
    is_number_spec none [0, 0, 0, 0, 0, 0, 0, 0, 0, 0, 0, 250] rfl).2 (by decide)⟩

/-- C10. Repair is in place and never resizes: for a record size of at least 1 the call
returns, the file keeps its length, and every byte outside the spans of the records read in
full is unchanged; in particular the trailing partial record of a whole-file scan is not
touched, and a positional record that would extend past the end of the file changes nothing. -/
theorem repair_in_place (cfg : Config) ( is_number : List Nat → Bool)
    (input : Option (List (List Nat))) (file : List Nat) (hRS : 1 ≤ cfg.RECORD_SIZE) :
    ∃ out, process_file cfg is_number input file = some out ∧
      out.file.length = file.length ∧
      (∀ j : Nat, (∀ p ∈ records_read cfg is_number input file.length,
          ¬ (p ≤ j ∧ j < p + cfg.RECORD_SIZE)) → out.file[j]? = file[j]?) ∧
      ((cfg.FULL_DETECTION_FLAG || cfg.ZERO_DETECTION_FLAG) = true →
        ∀ j : Nat, file.length / cfg.RECORD_SIZE * cfg.RECORD_SIZE ≤ j →
          out.file[j]? = file[j]?) ∧
      (∀ st : PosState, st.file.length < st.current_pos + cfg.RECORD_SIZE →
        check_record cfg st = st) := by
  have hshort : ∀ st : PosState, st.file.length < st.current_pos + cfg.RECORD_SIZE →
      check_record cfg st = st := by
    intro st h
    apply check_record_short
    simp only [read_in_full, Bool.and_eq_false_iff, decide_eq_false_iff_not]
    right; omega
  cases hm : (cfg.FULL_DETECTION_FLAG || cfg.ZERO_DETECTION_FLAG)
  · refine ⟨_, process_file_positional cfg is_number input file hm, ?_, ?_, ?_, hshort⟩
    · exact check_all_length cfg _ _
    · intro j hj
      apply check_all_frame
      intro p hp hfull
      apply hj p
      simp only [records_read, hm, Bool.false_eq_true, if_false]
      exact List.mem_filter.mpr ⟨hp, hfull⟩
    · intro h; exact absurd h (by simp)
  · have hk := Nat.div_mul_le_self file.length cfg.RECORD_SIZE
    have htail : ∀ j : Nat, file.length / cfg.RECORD_SIZE * cfg.RECORD_SIZE ≤ j →
        (scan_chunks cfg (file.length / cfg.RECORD_SIZE) file 0).1[j]? = file[j]? := by
      intro j hj
      have h := scan_chunks_drop cfg (file.length / cfg.RECORD_SIZE) file 0 hk
      have h2 := congrArg
        (fun l : List Nat => l[j - file.length / cfg.RECORD_SIZE * cfg.RECORD_SIZE]?) h
      simp only [List.getElem?_drop] at h2
      have e : file.length / cfg.RECORD_SIZE * cfg.RECORD_SIZE +
          (j - file.length / cfg.RECORD_SIZE * cfg.RECORD_SIZE) = j := by omega
      rw [e] at h2
      exact h2
    refine ⟨_, process_file_scan cfg is_number input file hRS hm, ?_, ?_, ?_, hshort⟩
    · exact scan_chunks_length cfg _ _ _ hk
    · intro j hj
      apply htail
      by_contra hlt
      have hlt2 : j < file.length / cfg.RECORD_SIZE * cfg.RECORD_SIZE := by omega
      have hdiv : j / cfg.RECORD_SIZE < file.length / cfg.RECORD_SIZE :=
        (Nat.div_lt_iff_lt_mul hRS).mpr hlt2
      have h1 := Nat.div_mul_le_self j cfg.RECORD_SIZE
      have h2 : j < j / cfg.RECORD_SIZE * cfg.RECORD_SIZE + cfg.RECORD_SIZE :=
        Nat.lt_div_mul_add hRS
      apply hj (j / cfg.RECORD_SIZE * cfg.RECORD_SIZE) _ ⟨h1, h2⟩
      simp only [records_read, hm, if_true]
      exact List.mem_map.mpr ⟨j / cfg.RECORD_SIZE, List.mem_range.mpr hdiv, rfl⟩
    · intro _ j hj
      exact htail j hj

/-- Witness of C10: a whole-file scan of a file of two records and a trailing partial one. -/
theorem repair_in_place_witness :
    1 ≤ (⟨2, 32, 0, false, true, true, true⟩ : Config).RECORD_SIZE ∧
    ∃ out, process_file ⟨2, 32, 0, false, true, true, true⟩ is_number_spec none
        [0, 250, 7, 10, 0] = some out ∧
      out.file.length = ([0, 250, 7, 10, 0] : List Nat).length ∧
      (∀ j : Nat, (∀ p ∈ records_read ⟨2, 32, 0, false, true, true, true⟩ is_number_spec none
            ([0, 250, 7, 10, 0] : List Nat).length,
          ¬ (p ≤ j ∧ j < p + (⟨2, 32, 0, false, true, true, true⟩ : Config).RECORD_SIZE)) →
        out.file[j]? = ([0, 250, 7, 10, 0] : List Nat)[j]?) ∧
      (((⟨2, 32, 0, false, true, true, true⟩ : Config).FULL_DETECTION_FLAG ||
          (⟨2, 32, 0, false, true, true, true⟩ : Config).ZERO_DETECTION_FLAG) = true →
        ∀ j : Nat, ([0, 250, 7, 10, 0] : List Nat).length /
            (⟨2, 32, 0, false, true, true, true⟩ : Config).RECORD_SIZE *
            (⟨2, 32, 0, false, true, true, true⟩ : Config).RECORD_SIZE ≤ j →
          out.file[j]? = ([0, 250, 7, 10, 0] : List Nat)[j]?) ∧
      (∀ st : PosState,
        st.file.length <
          st.current_pos + (⟨2, 32, 0, false, true, true, true⟩ : Config).RECORD_SIZE →
        check_record ⟨2, 32, 0, false, true, true, true⟩ st = st) :=
  ⟨by decide, repair_in_place ⟨2, 32, 0, false, true, true, true⟩ is_number_spec none
    [0, 250, 7, 10, 0] (by decide)⟩

/-- C4 as the code has it.  The count of a report-only run equals the count of a commit run on
the same file with the same configuration for every whole-file policy, and in positional mode
whenever the records read in full are pairwise disjoint (no offset repeats, no two records
overlap). -/
theorem report_commit_count (cfg : Config) ( is_number : List Nat → Bool)
    (input : Option (List (List Nat))) (file : List Nat) (hRS : 1 ≤ cfg.RECORD_SIZE)
    (hdisj : (cfg.FULL_DETECTION_FLAG || cfg.ZERO_DETECTION_FLAG) = false →
      (records_read cfg is_number input file.length).Pairwise
        (fun p q => p + cfg.RECORD_SIZE ≤ q ∨ q + cfg.RECORD_SIZE ≤ p)) :
    ∃ r c, process_file { cfg with UPDATE_FLAG := false } is_number input file = some r ∧
      process_file { cfg with UPDATE_FLAG := true } is_number input file = some c ∧
      r.invalid_count = c.invalid_count := by
  cases hm : (cfg.FULL_DETECTION_FLAG || cfg.ZERO_DETECTION_FLAG)
  · refine ⟨_, _, process_file_positional { cfg with UPDATE_FLAG := false } is_number input
      file hm, process_file_positional { cfg with UPDATE_FLAG := true } is_number input file hm,
      ?_⟩
    show (check_all { cfg with UPDATE_FLAG := false } (offsets cfg is_number input)
        (file, 0)).2 =
      (check_all { cfg with UPDATE_FLAG := true } (offsets cfg is_number input) (file, 0)).2
    have hR := check_all_filter { cfg with UPDATE_FLAG := false } (offsets cfg is_number input)
      (file, 0)
    have hU := check_all_filter { cfg with UPDATE_FLAG := true } (offsets cfg is_number input)
      (file, 0)
    rw [← hR, ← hU]
    have hpw := hdisj hm
    simp only [records_read, hm, Bool.false_eq_true, if_false] at hpw
    exact (check_all_count_disjoint cfg _ file file 0 rfl
      (fun p hp => (List.mem_filter.mp hp).2) (fun _ _ => rfl) hpw).symm
  · refine ⟨_, _, process_file_scan { cfg with UPDATE_FLAG := false } is_number input file hRS
      hm, process_file_scan { cfg with UPDATE_FLAG := true } is_number input file hRS hm, ?_⟩
    simp only []
    rw [scan_chunks_count_update cfg false, scan_chunks_count_update cfg true]

/-- Witness of the amended C4: two records that do not overlap, read at offsets 0 and 2. -/
theorem report_commit_count_witness :
    1 ≤ (⟨2, 32, 0, true, false, false, false⟩ : Config).RECORD_SIZE ∧
    ∃ r c, process_file { (⟨2, 32, 0, true, false, false, false⟩ : Config) with
          UPDATE_FLAG := false } is_number_spec (some [[50]]) [0, 250, 7, 10, 0] = some r ∧
      process_file { (⟨2, 32, 0, true, false, false, false⟩ : Config) with
          UPDATE_FLAG := true } is_number_spec (some [[50]]) [0, 250, 7, 10, 0] = some c ∧
      r.invalid_count = c.invalid_count :=
  ⟨by decide, report_commit_count ⟨2, 32, 0, true, false, false, false⟩ is_number_spec
    (some [[50]]) [0, 250, 7, 10, 0] (by decide) (fun _ => by decide)⟩

/-- Counterexample to C4 as stated: offset 0 given with `-p` and again in the list.  The
report-only run counts the null byte twice, the commit run once, because the second read sees
the byte the first one repaired. -/
theorem report_commit_count_differ :
    process_file ⟨1, 32, 0, true, false, false, false⟩ is_number_spec (some [[48]]) [0] =
      some ⟨[0], 2, 0⟩ ∧
    process_file ⟨1, 32, 0, true, true, false, false⟩ is_number_spec (some [[48]]) [0] =
      some ⟨[32], 1, 0⟩ := by
  decide

/-- C1 as the code has it.  In update mode with a fill value in [32,126], for the positional
policy with any offsets, for full-detection alone and for zero-detection alone, a second run
on the file the first run left changes no byte and counts 0 invalid characters. -/
theorem commit_idempotent (cfg : Config) ( is_number : List Nat → Bool)
    (input : Option (List (List Nat))) (file : List Nat) (hRS : 1 ≤ cfg.RECORD_SIZE)
    (hu : cfg.UPDATE_FLAG = true)
    (hfill : VALID_START ≤ cfg.FILL_VALUE ∧ cfg.FILL_VALUE ≤ VALID_END)
    (hmode : ¬ (cfg.FULL_DETECTION_FLAG = true ∧ cfg.ZERO_DETECTION_FLAG = true)) :
    ∃ out, process_file cfg is_number input file = some out ∧
      process_file cfg is_number input out.file =
        some { file := out.file, invalid_count := 0, ret_val := out.ret_val } := by
  cases hm : (cfg.FULL_DETECTION_FLAG || cfg.ZERO_DETECTION_FLAG)
  · refine ⟨_, process_file_positional cfg is_number input file hm, ?_⟩
    rw [process_file_positional cfg is_number input _ hm]
    simp only []
    rw [check_all_fixed cfg (offsets cfg is_number input)
      ((check_all cfg (offsets cfg is_number input) (file, 0)).1, 0)
      (fun q hq => check_all_tidy cfg hu hfill _ (file, 0) q hq)]
  · refine ⟨_, process_file_scan cfg is_number input file hRS hm, ?_⟩
    rw [process_file_scan cfg is_number input _ hRS hm]
    simp only []
    have hk := Nat.div_mul_le_self file.length cfg.RECORD_SIZE
    rw [scan_chunks_length cfg _ _ _ hk, scan_chunks_idem cfg hu hmode hfill _ _ _ _ hk]

/-- Witness of the amended C1: zero-detection alone on a record that is deleted. -/
theorem commit_idempotent_witness :
    1 ≤ (⟨12, 32, 0, false, true, false, true⟩ : Config).RECORD_SIZE ∧
    (VALID_START ≤ (⟨12, 32, 0, false, true, false, true⟩ : Config).FILL_VALUE ∧
      (⟨12, 32, 0, false, true, false, true⟩ : Config).FILL_VALUE ≤ VALID_END) ∧
    ¬ ((⟨12, 32, 0, false, true, false, true⟩ : Config).FULL_DETECTION_FLAG = true ∧
      (⟨12, 32, 0, false, true, false, true⟩ : Config).ZERO_DETECTION_FLAG = true) ∧
    ∃ out, process_file ⟨12, 32, 0, false, true, false, true⟩ is_number_spec none
        [0, 0, 0, 0, 0, 0, 0, 0, 0, 0, 0, 250] = some out ∧
      process_file ⟨12, 32, 0, false, true, false, true⟩ is_number_spec none out.file =
        some { file := out.file, invalid_count := 0, ret_val := out.ret_val } :=
  ⟨by decide, by decide, by decide,
    commit_idempotent ⟨12, 32, 0, false, true, false, true⟩ is_number_spec none
      [0, 0, 0, 0, 0, 0, 0, 0, 0, 0, 0, 250] (by decide) rfl (by decide) (by decide)⟩

/-- Counterexample to C1 as stated: with full-detection and zero-detection together the first
run turns a null byte into 0xFF, and the second run counts that 0xFF as invalid and turns it
into the fill value. -/
theorem combined_not_idempotent :
    process_file ⟨1, 32, 0, false, true, true, true⟩ is_number_spec none [0] =
      some ⟨[255], 1, 0⟩ ∧
    process_file ⟨1, 32, 0, false, true, true, true⟩ is_number_spec none [255] =
      some ⟨[32], 1, 0⟩ := by
  decide

/-- C2, the code at the offset list `10`, `XYZ`, `20` in update mode, record size 1, on a file
of 21 null bytes: the run does not stop at `XYZ`.  The record at 10 is repaired before the bad
line is read, checked again for the bad line, and the record at 20 is repaired after it; only
the return value records the bad line. -/
theorem malformed_list_still_processed :
    is_number_spec [88, 89, 90] = false ∧
    process_file ⟨1, 32, 0, false, true, false, false⟩ is_number_spec
        (some [[49, 48], [88, 89, 90], [50, 48]])
        [0, 0, 0, 0, 0, 0, 0, 0, 0, 0, 0, 0, 0, 0, 0, 0, 0, 0, 0, 0, 0] =
      some ⟨[0, 0, 0, 0, 0, 0, 0, 0, 0, 0, 32, 0, 0, 0, 0, 0, 0, 0, 0, 0, 32], 2, 1⟩ := by
  decide

/-! ## The fill value -/

theorem FILL_VALUE_printable : VALID_START ≤ FILL_VALUE ∧ FILL_VALUE ≤ VALID_END := by
  decide

/-- A value that passes the range test of line 244 is stored unchanged in the `unsigned char`. -/
theorem to_unsigned_char_of_range (v : Int)
    (h : VALID_START ≤ to_unsigned v ∧ to_unsigned v ≤ VALID_END) :
    to_unsigned_char v = to_unsigned v := by
  have h1 : 32 ≤ to_unsigned v := h.1
  have h2 : to_unsigned v ≤ 126 := h.2
  unfold to_unsigned at h1 h2 ⊢
  unfold to_unsigned_char
  have e32 : (2 : Int) ^ 32 = 4294967296 := by norm_num
  have e8 : (2 : Int) ^ 8 = 256 := by norm_num
  rw [e32] at h1 h2 ⊢
  rw [e8]
  omega

/-- The invariant of `FILL_VALUE`: a call of `set_fill_val` keeps it in [32,126]. -/
theorem set_fill_val_range ( is_number : List Nat → Bool) (param : List Nat) (fill : Nat)
    (h : VALID_START ≤ fill ∧ fill ≤ VALID_END) :
    VALID_START ≤ (set_fill_val is_number param fill).FILL_VALUE ∧
      (set_fill_val is_number param fill).FILL_VALUE ≤ VALID_END := by
  unfold set_fill_val
  cases hn : is_number param
  · simpa using h
  · simp only [if_true]
    by_cases hr : VALID_START ≤ to_unsigned (to_int (to_size_t (strtoll param))) ∧
        to_unsigned (to_int (to_size_t (strtoll param))) ≤ VALID_END
    · rw [if_pos (by simpa using hr)]
      simp only []
      rw [to_unsigned_char_of_range _ hr]
      exact hr
    · rw [if_neg (by simpa using hr)]
      exact h

/-- A call of `set_fill_val` that returns 1 leaves `FILL_VALUE` as it was. -/
theorem set_fill_val_rejected ( is_number : List Nat → Bool) (param : List Nat) (fill : Nat)
    (h : (set_fill_val is_number param fill).ret_val = 1) :
    (set_fill_val is_number param fill).FILL_VALUE = fill := by
  unfold set_fill_val at h ⊢
  cases hn : is_number param
  · rfl
  · rw [hn] at h
    simp only [if_true] at h ⊢
    by_cases hr : (decide (to_unsigned (to_int (to_size_t (strtoll param))) ≥ VALID_START) &&
        decide (to_unsigned (to_int (to_size_t (strtoll param))) ≤ VALID_END)) = true
    · rw [if_pos hr] at h
      exact absurd h (by simp)
    · rw [if_neg hr]

/-- The test of line 244 sees the parameter only through its low 32 bits. -/
theorem set_fill_val_accepts ( is_number : List Nat → Bool) (param : List Nat) (fill : Nat)
    (hn : is_number param = true)
    (hr : VALID_START ≤ to_size_t (strtoll param) % 2 ^ 32 ∧
      to_size_t (strtoll param) % 2 ^ 32 ≤ VALID_END) :
    set_fill_val is_number param fill =
      { ret_val := 0, FILL_VALUE := to_size_t (strtoll param) % 2 ^ 32 } := by
  have h1 : 32 ≤ to_size_t (strtoll param) % 2 ^ 32 := hr.1
  have h2 : to_size_t (strtoll param) % 2 ^ 32 ≤ 126 := hr.2
  have hu : to_unsigned (to_int (to_size_t (strtoll param))) =
      to_size_t (strtoll param) % 2 ^ 32 := by
    unfold to_unsigned to_int
    generalize to_size_t (strtoll param) = v at h1 h2 ⊢
    have e32 : (2 : Int) ^ 32 = 4294967296 := by norm_num
    have n32 : (2 : Nat) ^ 32 = 4294967296 := by norm_num
    have n31 : (2 : Nat) ^ 31 = 2147483648 := by norm_num
    rw [n32] at h1 h2 ⊢
    rw [e32, n31]
    rw [if_pos (by omega)]
    omega
  have hr2 : VALID_START ≤ to_unsigned (to_int (to_size_t (strtoll param))) ∧
      to_unsigned (to_int (to_size_t (strtoll param))) ≤ VALID_END := by
    rw [hu]; exact hr
  unfold set_fill_val
  rw [hn, if_pos rfl]
  simp only []
  rw [if_pos (by simpa using hr2), to_unsigned_char_of_range _ hr2, hu]

/-- C11, the code at the parameter `4294967361` (2^32 + 65) with `FILL_VALUE` at its initial
32: the number is outside [32,126], but `param_val` is an `int` and holds its low 32 bits, 65,
so the range test of line 244 passes, the call returns 0 and `FILL_VALUE` becomes 65. -/
theorem fill_value_truncated :
    is_number_spec [52, 50, 57, 52, 57, 54, 55, 51, 54, 49] = true ∧
    strtoll [52, 50, 57, 52, 57, 54, 55, 51, 54, 49] = 4294967361 ∧
    set_fill_val is_number_spec [52, 50, 57, 52, 57, 54, 55, 51, 54, 49] FILL_VALUE =
      { ret_val := 0, FILL_VALUE := 65 } := by
  decide

/-- C12. Both scans treat both terminator values alike: the test of line 452 and the test of
line 555 give the same answer for every byte, record size and offset, and under both each of
the values 250 and 10 is invalid exactly at the offsets other than `RECORD_SIZE - 1`. -/
theorem terminator_tests_agree (RECORD_SIZE i get_char : Nat) :
    invalid_scan RECORD_SIZE i get_char = invalid_pos RECORD_SIZE i get_char ∧
    invalid_scan RECORD_SIZE i END_OF_RECORD = (i != RECORD_SIZE - 1) ∧
    invalid_scan RECORD_SIZE i END_OF_RECORD_CR = (i != RECORD_SIZE - 1) ∧
    invalid_pos RECORD_SIZE i END_OF_RECORD = (i != RECORD_SIZE - 1) ∧
    invalid_pos RECORD_SIZE i END_OF_RECORD_CR = (i != RECORD_SIZE - 1) := by
  refine ⟨?_, ?_, ?_, ?_, ?_⟩
  · exact Bool.eq_iff_iff.mpr ((invalid_scan_iff _ _ _).trans (invalid_pos_iff _ _ _).symm)
  · simp [invalid_scan, VALID_START, VALID_END, END_OF_RECORD, END_OF_RECORD_CR]
  · simp [invalid_scan, VALID_START, VALID_END, END_OF_RECORD, END_OF_RECORD_CR]
  · simp [invalid_pos, VALID_START, VALID_END, END_OF_RECORD, END_OF_RECORD_CR]
  · simp [invalid_pos, VALID_START, VALID_END, END_OF_RECORD, END_OF_RECORD_CR]
